import Mathlib

/-!
Shallow embedding of the task-graph execution engine of the
`vivify-backend` repository.

Sources embedded here:
* `services/orchestrator.py` — `create_task_graph` (lines 90-134),
  `execute_task_graph` with its inner `execute_task` coroutine
  (lines 136-276);
* `database/connection.py` — the `task_dependencies` schema
  (`UNIQUE(task_id, depends_on_task_id)`, foreign keys, lines 91-99) and the
  `tasks` / `task_graphs` schemas.

Modelling decisions, each tied to the source:
* JSONB payloads are opaque; they are modelled as `String`.
* Timestamps (`created_at`, `started_at`, ...) and `retry_count` are never
  read by the scheduler and are omitted from the row types.
* `asyncpg` auto-commits each statement (the code opens no transaction), so
  `create_task_graph` is modelled as a sequence of individual inserts whose
  partial effects survive a failing later insert.
* Between two iterations of the main loop (line 243) the `running` set is
  empty, because `asyncio.gather` (line 256) waits for every dispatched
  `execute_task` coroutine; the loop is therefore modelled round by round:
  each round processes the whole ready set.  Within a round, each ready
  task's own dependency re-check (line 190) always passes because
  `completed` only grows, and each task's outcome depends only on its own
  capability, so the order inside a round does not affect the final sets.
* The semaphore (line 181) and the instant-by-instant `running` set do not
  influence the per-round outcome, only the interleaving; they are modelled
  separately by a small-step transition system (`SchedStep`) that mirrors
  the control points of `execute_task` (lines 183-240).
-/

namespace Vivify

/-- JSONB payloads are opaque to the engine; modelled as strings. -/
abbrev JsonData := String

/-- Row of the `task_graphs` table (timestamps and `metadata` omitted:
never read by the engine). -/
structure TaskGraphRow where
  id : String
  name : String
  status : String
  deriving DecidableEq

/-- Row of the `tasks` table (timestamps and `retry_count` omitted:
never read by the engine). -/
structure TaskRow where
  id : String
  graphId : String
  name : String
  status : String
  agentType : Option String
  inputData : JsonData
  outputData : Option JsonData
  errorMessage : Option String
  deriving DecidableEq

/-- Row of the `task_dependencies` table.  The `SERIAL id` column is
omitted: the `UNIQUE(task_id, depends_on_task_id)` constraint makes the
ordered pair the logical identity of an edge. -/
structure TaskDependencyRow where
  taskId : String
  dependsOnTaskId : String
  deriving DecidableEq

/-- The relational store the engine talks to (the three tables the
scheduler touches). -/
structure Store where
  taskGraphs : List TaskGraphRow
  tasks : List TaskRow
  taskDependencies : List TaskDependencyRow
  deriving DecidableEq

/-- `SELECT * FROM tasks WHERE id = ...` (first matching row; ids are the
primary key). -/
def findRow (s : Store) (tid : String) : Option TaskRow :=
  s.tasks.find? (fun r => r.id == tid)

/-- `UPDATE tasks SET ... WHERE id = tid`. -/
def updateTaskRow (s : Store) (tid : String) (f : TaskRow → TaskRow) : Store :=
  { s with tasks := s.tasks.map (fun r => if r.id == tid then f r else r) }

/-- `UPDATE task_graphs SET ... WHERE id = gid`. -/
def updateGraphRow (s : Store) (gid : String) (f : TaskGraphRow → TaskGraphRow) : Store :=
  { s with taskGraphs := s.taskGraphs.map (fun g => if g.id == gid then f g else g) }

/-!
## Edge insertion (orchestrator.py lines 125-131 + connection.py lines 91-99)

`INSERT INTO task_dependencies (task_id, depends_on_task_id) VALUES ($1,$2)
ON CONFLICT DO NOTHING` against the schema
`task_id REFERENCES tasks(id), depends_on_task_id REFERENCES tasks(id),
UNIQUE(task_id, depends_on_task_id)`.
A foreign-key violation raises; a duplicate pair is silently skipped.
-/

def insertTaskDependency (s : Store) (e : TaskDependencyRow) : Except String Store :=
  if ¬ s.tasks.any (fun t => t.id == e.taskId) then
    .error ("foreign key violation on task_id " ++ e.taskId)
  else if ¬ s.tasks.any (fun t => t.id == e.dependsOnTaskId) then
    .error ("foreign key violation on depends_on_task_id " ++ e.dependsOnTaskId)
  else if s.taskDependencies.any
      (fun d => d.taskId == e.taskId && d.dependsOnTaskId == e.dependsOnTaskId) then
    .ok s
  else
    .ok { s with taskDependencies := s.taskDependencies ++ [e] }

/-- The caller-supplied description of one task
(`task_data` dict in `create_task_graph`; the HTTP layer always supplies
an explicit `id`, so the `uuid4` default for a missing id is not
modelled). -/
structure TaskData where
  id : String
  name : String
  agentType : Option String
  inputData : JsonData
  deriving DecidableEq

/-- The row `create_task_graph` persists for one supplied task: status
`pending`, no output, no error (lines 112-123). -/
def mkPendingRow (gid : String) (td : TaskData) : TaskRow :=
  { id := td.id, graphId := gid, name := td.name, status := "pending",
    agentType := td.agentType, inputData := td.inputData,
    outputData := none, errorMessage := none }

/-- `INSERT INTO tasks ...` (lines 109-123): a fresh row with status
`pending`, no output and no error; a primary-key collision raises. -/
def insertTaskRow (gid : String) (s : Store) (td : TaskData) : Except String Store :=
  if s.tasks.any (fun t => t.id == td.id) then
    .error ("duplicate key value violates tasks_pkey: " ++ td.id)
  else
    .ok { s with tasks := s.tasks ++ [mkPendingRow gid td] }

/-- Run a sequence of auto-committed inserts; the first failure stops the
sequence but keeps every earlier insert (the code opens no transaction,
so `asyncpg` commits each statement individually). -/
def insertAll {α : Type} (f : Store → α → Except String Store) :
    Store → List α → Except String Unit × Store
  | s, [] => (.ok (), s)
  | s, x :: xs =>
    match f s x with
    | .ok s2 => insertAll f s2 xs
    | .error e => (.error e, s)

/-- `create_task_graph` (lines 90-134): insert the graph row, then every
task row (status `pending`), then every dependency edge, each as its own
statement.  The returned pair is (result of the call, state of the store
when the call returns — also on failure, since nothing is rolled back). -/
def create_task_graph (s : Store) (graphId name : String)
    (tasks : List TaskData) (dependencies : List TaskDependencyRow) :
    Except String String × Store :=
  if s.taskGraphs.any (fun g => g.id == graphId) then
    (.error ("duplicate key value violates task_graphs_pkey: " ++ graphId), s)
  else
    let s1 : Store :=
      { s with taskGraphs := s.taskGraphs ++ [{ id := graphId, name := name, status := "pending" }] }
    match insertAll (insertTaskRow graphId) s1 tasks with
    | (.error e, s2) => (.error e, s2)
    | (.ok _, s2) =>
      match insertAll insertTaskDependency s2 dependencies with
      | (.error e, s3) => (.error e, s3)
      | (.ok _, s3) => (.ok graphId, s3)

/-!
## Capability invocation (execute_task body, lines 202-227)

`if task.agent_type and task.agent_type in self.agents:` — Python
truthiness makes both `None` and the empty string skip the agent; either
way the task is marked `completed` without touching `output_data` or
`error_message`.  A registered capability either returns an output
(task marked `completed` with `output_data`) or raises (task marked
`failed` with `error_message`).
-/

/-- A registered capability: task input to task output, or failure. -/
abbrev AgentFunc := JsonData → Except String JsonData

/-- The agent registry `self.agents` (a dict keyed by agent type). -/
abbrev AgentRegistry := List (String × AgentFunc)

/-- Dict lookup `self.agents[agent_type]` / `in self.agents`. -/
def lookupAgent (agents : AgentRegistry) (a : String) : Option AgentFunc :=
  (agents.find? (fun p => p.1 == a)).map (fun p => p.2)

/-- Outcome of one capability invocation for one task. -/
inductive TaskOutcome
  | success (output : Option JsonData)
  | failure (msg : String)
  deriving DecidableEq

/-- Lines 202-227: invoke the registered capability for the task's
`agent_type`, or trivially succeed with no output when the agent type is
`None`, empty, or unregistered. -/
def runCapability (agents : AgentRegistry) (task : TaskRow) : TaskOutcome :=
  match task.agentType with
  | some a =>
    if a = "" then .success none
    else
      match lookupAgent agents a with
      | some f =>
        match f task.inputData with
        | .ok out => .success (some out)
        | .error e => .failure e
      | none => .success none
  | none => .success none

/-- `True` exactly when the capability invocation for this task does not
raise (unregistered or absent agent types count as success, lines
219-227). -/
def succeedsB (agents : AgentRegistry) (task : TaskRow) : Bool :=
  match runCapability agents task with
  | .success _ => true
  | .failure _ => false

/-- `succeedsB` lifted to a task id via the loaded task dict
(`tasks[task_id]`); ids absent from the dict are irrelevant. -/
def succeedsId (agents : AgentRegistry) (tasks : List TaskRow) (tid : String) : Bool :=
  match tasks.find? (fun t => t.id == tid) with
  | some t => succeedsB agents t
  | none => true

/-!
## The execution loop (lines 177-276), round by round

State of one `execute_task_graph` call: the evolving store plus the
call-local bookkeeping sets `completed` and `failed` (line 178-180; both
start empty, regardless of the statuses persisted in the store).
-/

/-- Call-local state of one `execute_task_graph` invocation. -/
structure ExecState where
  store : Store
  completed : Finset String
  failed : Finset String

/-- Dependency map built from the fetched edge rows (lines 163-168):
`dependencies[task_id]` lists every `depends_on_task_id`. -/
def depsOf (depRows : List TaskDependencyRow) (tid : String) : List String :=
  (depRows.filter (fun d => d.taskId == tid)).map (fun d => d.dependsOnTaskId)

/-- One dispatched `execute_task` coroutine (lines 183-240), observed at
the round boundary: re-check dependencies against `completed` (line 190),
mark the row `running` (lines 194-198), invoke the capability, then record
the terminal status (lines 202-240). -/
def execute_task (agents : AgentRegistry) (tasks : List TaskRow)
    (deps : String → List String) (st : ExecState) (tid : String) : ExecState :=
  match tasks.find? (fun t => t.id == tid) with
  | none => st
  | some task =>
    if (deps tid).all (fun d => decide (d ∈ st.completed)) then
      let s1 := updateTaskRow st.store tid (fun r => { r with status := "running" })
      match runCapability agents task with
      | .success (some out) =>
        { store := updateTaskRow s1 tid
            (fun r => { r with status := "completed", outputData := some out }),
          completed := insert tid st.completed, failed := st.failed }
      | .success none =>
        { store := updateTaskRow s1 tid (fun r => { r with status := "completed" }),
          completed := insert tid st.completed, failed := st.failed }
      | .failure e =>
        { store := updateTaskRow s1 tid
            (fun r => { r with status := "failed", errorMessage := some e }),
          completed := st.completed, failed := insert tid st.failed }
    else st

/-- The ready set of one round (lines 245-249): not yet terminal, not
running — between rounds nothing is running, since `asyncio.gather` has
drained every coroutine — and every dependency completed. -/
def readyTasks (tasks : List TaskRow) (deps : String → List String)
    (st : ExecState) : List String :=
  (tasks.map (fun t => t.id)).filter (fun tid =>
    decide (tid ∉ st.completed) && decide (tid ∉ st.failed) &&
    (deps tid).all (fun d => decide (d ∈ st.completed)))

/-- `asyncio.gather` over the ready tasks (line 256). -/
def execRound (agents : AgentRegistry) (tasks : List TaskRow)
    (deps : String → List String) : List String → ExecState → ExecState
  | [], st => st
  | tid :: rest, st =>
    execRound agents tasks deps rest (execute_task agents tasks deps st tid)

/-- The main loop (lines 242-257): while some task is non-terminal,
compute the ready set; stop on a stall (ready empty — `running` is empty
at this point); otherwise run the round.  Each productive round makes at
least one task terminal, so `tasks.length` rounds of fuel always reach the
loop's own exit condition. -/
def execLoop (agents : AgentRegistry) (tasks : List TaskRow)
    (deps : String → List String) : Nat → ExecState → ExecState
  | 0, st => st
  | fuel + 1, st =>
    if st.completed.card + st.failed.card < tasks.length then
      let ready := readyTasks tasks deps st
      if ready.isEmpty then st
      else execLoop agents tasks deps fuel (execRound agents tasks deps ready st)
    else st

/-- The summary dict returned by `execute_task_graph` (lines 269-276).
`duration_seconds` is wall-clock time and is not part of the model. -/
structure ExecutionSummary where
  graphId : String
  status : String
  completed : Nat
  failed : Nat
  total : Nat
  deriving DecidableEq

/-- Result of one `execute_task_graph` call, keeping the final
bookkeeping sets observable for the statements below. -/
structure ExecResult where
  summary : ExecutionSummary
  completedSet : Finset String
  failedSet : Finset String
  finalStore : Store

/-- `SELECT * FROM tasks WHERE graph_id = $1` (lines 153-155). -/
def graphTaskRows (s : Store) (gid : String) : List TaskRow :=
  s.tasks.filter (fun t => t.graphId == gid)

/-- The dependency map of a graph: edge rows whose `task_id` belongs to
the graph (lines 156-159), turned into `dependencies[task_id]`. -/
def graphDeps (s : Store) (gid : String) (tid : String) : List String :=
  depsOf (s.taskDependencies.filter
    (fun d => (graphTaskRows s gid).any (fun t => t.id == d.taskId))) tid

/-- State at line 181: both bookkeeping sets start empty — the tasks'
persisted statuses are never consulted — after the graph row was set to
`running` (lines 171-175). -/
def initExecState (s : Store) (gid : String) : ExecState :=
  { store := updateGraphRow s gid (fun g => { g with status := "running" }),
    completed := ∅, failed := ∅ }

/-- State when the main loop exits.  `tasks.length` rounds of fuel are
enough: each productive round makes at least one task terminal
(`execLoop_spec` below), so this is the loop's own fixpoint. -/
def finalExecState (agents : AgentRegistry) (s : Store) (gid : String) : ExecState :=
  execLoop agents (graphTaskRows s gid) (graphDeps s gid)
    (graphTaskRows s gid).length (initExecState s gid)

/-- `execute_task_graph` (lines 136-276).  `maxParallel` bounds the
in-flight coroutines (modelled by `SchedStep` below); it does not change
which tasks finish in a round, so the round model ignores it. -/
def execute_task_graph_core (agents : AgentRegistry) (s : Store)
    (graphId : String) (maxParallel : Nat) : Except String ExecResult :=
  match s.taskGraphs.find? (fun g => g.id == graphId) with
  | none => .error ("Task graph " ++ graphId ++ " not found")
  | some _ =>
    let stF := finalExecState agents s graphId
    let finalStatus := if stF.failed.card = 0 then "completed" else "failed"
    let s2 := updateGraphRow stF.store graphId (fun g => { g with status := finalStatus })
    .ok { summary := { graphId := graphId, status := finalStatus,
                       completed := stF.completed.card, failed := stF.failed.card,
                       total := (graphTaskRows s graphId).length },
          completedSet := stF.completed, failedSet := stF.failed, finalStore := s2 }

/-- The caller-facing return value of `execute_task_graph`: the summary
dict, together with the store it leaves behind. -/
def execute_task_graph (agents : AgentRegistry) (s : Store)
    (graphId : String) (maxParallel : Nat) : Except String (ExecutionSummary × Store) :=
  (execute_task_graph_core agents s graphId maxParallel).map
    (fun r => (r.summary, r.finalStore))

/-- `Except.isOk` spelled out (used to state which calls raise). -/
def exceptOk {ε α : Type} : Except ε α → Bool
  | .ok _ => true
  | .error _ => false

/-- Project a successful result through `f` (`none` on error); used to
state concrete evaluations. -/
def exceptView {ε α β : Type} (f : α → β) : Except ε α → Option β
  | .ok a => some (f a)
  | .error _ => none

/-- Transitive dependency: `Reaches deps t u` holds when `u` is reachable
from `t` along `depends_on` edges (reflexively). -/
def Reaches (deps : String → List String) (t u : String) : Prop :=
  Relation.ReflTransGen (fun a b => b ∈ deps a) t u

/-!
## Small-step model of the in-flight coroutines (lines 181-240)

The round model above fixes the per-round outcome; the semaphore bound and
the instant-by-instant `running` set are about interleaving, so they are
modelled by a transition system whose control points are exactly those of
`execute_task`:

* `dispatch`  — the main loop creates a coroutine for a ready task
  (lines 245-256);
* `acquire`   — `async with semaphore:` entry (line 185), enabled only
  while fewer than `max_parallel` coroutines hold the semaphore;
* `checkOk` / `checkFail` — the dependency re-check (lines 189-191);
  a failing check returns, releasing the semaphore;
* `markRunning` — the `UPDATE ... status = running` plus `running.add`
  (lines 194-200);
* `finishOk` / `finishFail` — the capability invocation outcome together
  with the `finally:` block (`running.discard` and semaphore release,
  lines 202-240).

`st.phase t = .runningTask` is exactly `t ∈ running`.
-/

/-- Control point of one `execute_task` coroutine (no coroutine exists
while the phase is `idle`). -/
inductive TaskPhase
  | idle
  | waitingSem
  | holdingSem
  | checkedDeps
  | runningTask
  deriving DecidableEq

/-- Static data of one `execute_task_graph` call, as seen by the
dispatch machinery. -/
structure SchedCtx where
  taskIds : List String
  deps : String → List String
  succeeds : String → Bool
  maxParallel : Nat

/-- Instantaneous state: each task's control point plus the bookkeeping
sets. -/
structure SchedState where
  phase : String → TaskPhase
  completed : Finset String
  failed : Finset String

/-- Move one task to a new control point. -/
def setPhase (st : SchedState) (t : String) (p : TaskPhase) : SchedState :=
  { st with phase := fun x => if x = t then p else st.phase x }

/-- Phases during which the coroutine holds one semaphore unit. -/
def holdsSem : TaskPhase → Bool
  | .holdingSem => true
  | .checkedDeps => true
  | .runningTask => true
  | _ => false

/-- Number of semaphore units currently held. -/
def semCount (c : SchedCtx) (st : SchedState) : Nat :=
  (c.taskIds.toFinset.filter (fun t => holdsSem (st.phase t) = true)).card

/-- `len(running)`: tasks whose status is `running` at this instant. -/
def runningCount (c : SchedCtx) (st : SchedState) : Nat :=
  (c.taskIds.toFinset.filter (fun t => st.phase t = TaskPhase.runningTask)).card

/-- One interleaving step of the execution machinery. -/
inductive SchedStep (c : SchedCtx) : SchedState → SchedState → Prop
  | dispatch (st : SchedState) (t : String)
      (hmem : t ∈ c.taskIds) (hph : st.phase t = .idle)
      (hc : t ∉ st.completed) (hf : t ∉ st.failed)
      (hd : ∀ d ∈ c.deps t, d ∈ st.completed) :
      SchedStep c st (setPhase st t .waitingSem)
  | acquire (st : SchedState) (t : String)
      (hph : st.phase t = .waitingSem)
      (hsem : semCount c st < c.maxParallel) :
      SchedStep c st (setPhase st t .holdingSem)
  | checkOk (st : SchedState) (t : String)
      (hph : st.phase t = .holdingSem)
      (hd : ∀ d ∈ c.deps t, d ∈ st.completed) :
      SchedStep c st (setPhase st t .checkedDeps)
  | checkFail (st : SchedState) (t : String)
      (hph : st.phase t = .holdingSem)
      (hd : ¬ ∀ d ∈ c.deps t, d ∈ st.completed) :
      SchedStep c st (setPhase st t .idle)
  | markRunning (st : SchedState) (t : String)
      (hph : st.phase t = .checkedDeps) :
      SchedStep c st (setPhase st t .runningTask)
  | finishOk (st : SchedState) (t : String)
      (hph : st.phase t = .runningTask) (hs : c.succeeds t = true) :
      SchedStep c st { setPhase st t .idle with completed := insert t st.completed }
  | finishFail (st : SchedState) (t : String)
      (hph : st.phase t = .runningTask) (hs : c.succeeds t = false) :
      SchedStep c st { setPhase st t .idle with failed := insert t st.failed }

/-- State at the top of the loop: no coroutine in flight, both sets empty
(lines 178-180). -/
def schedStart : SchedState :=
  { phase := fun _ => .idle, completed := ∅, failed := ∅ }

/-- States an `execute_task_graph` call can pass through. -/
def SchedReachable (c : SchedCtx) (st : SchedState) : Prop :=
  Relation.ReflTransGen (SchedStep c) schedStart st

/-- Inductive invariant of the dispatch machinery. -/
def SchedInv (c : SchedCtx) (st : SchedState) : Prop :=
  semCount c st ≤ c.maxParallel ∧
  (∀ t, st.phase t ≠ .idle → t ∈ c.taskIds ∧ t ∉ st.completed ∧ t ∉ st.failed) ∧
  (∀ t, st.phase t = .checkedDeps → ∀ d ∈ c.deps t, d ∈ st.completed) ∧
  Disjoint st.completed st.failed

/-!
## Concrete inputs used by counterexamples and witnesses
-/

/-- A task row of graph `g1` with the given id and agent type, as
`create_task_graph` would persist it. -/
def mkTaskRow (tid : String) (a : Option String) : TaskRow :=
  { id := tid, graphId := "g1", name := tid, status := "pending",
    agentType := a, inputData := "", outputData := none, errorMessage := none }

/-- A registry with a single capability `boom` that always raises. -/
def boomAgents : AgentRegistry :=
  [("boom", fun _ => .error "boom exploded")]

/-- Two tasks forming a dependency cycle (`a` depends on `b`, `b` on
`a`); no capability is ever invoked. -/
def cyclicStore : Store :=
  { taskGraphs := [{ id := "g1", name := "cyclic", status := "pending" }],
    tasks := [mkTaskRow "a" none, mkTaskRow "b" none],
    taskDependencies := [{ taskId := "a", dependsOnTaskId := "b" },
                         { taskId := "b", dependsOnTaskId := "a" }] }

/-- A two-task chain: `b` depends on `a`, and `a`'s capability raises. -/
def chainStore : Store :=
  { taskGraphs := [{ id := "g1", name := "chain", status := "pending" }],
    tasks := [mkTaskRow "a" (some "boom"), mkTaskRow "b" none],
    taskDependencies := [{ taskId := "b", dependsOnTaskId := "a" }] }

/-- Two independent tasks; `a`'s capability raises, `b` has none. -/
def pairStore : Store :=
  { taskGraphs := [{ id := "g1", name := "pair", status := "pending" }],
    tasks := [mkTaskRow "a" (some "boom"), mkTaskRow "b" none],
    taskDependencies := [] }

/-- The empty store. -/
def emptyStore : Store :=
  { taskGraphs := [], tasks := [], taskDependencies := [] }

/-- The `else` branch condition of lines 204-227: the task's `agent_type`
is `None`, the empty string, or not registered. -/
def noUsableAgent (agents : AgentRegistry) (task : TaskRow) : Prop :=
  match task.agentType with
  | none => True
  | some a => a = "" ∨ lookupAgent agents a = none

/-- A topological rank for `chainStore` (witnessing that its edge set is
a DAG). -/
def chainRank : String → Nat := fun t => if t = "a" then 0 else 1

/-- A `create_task_graph` call whose single dependency edge names an
endpoint `b` that is not among the supplied tasks. -/
def badCreateCall : Except String String × Store :=
  create_task_graph emptyStore "g1" "n"
    [{ id := "a", name := "A", agentType := none, inputData := "" }]
    [{ taskId := "a", dependsOnTaskId := "b" }]

/-- A well-formed `create_task_graph` call: two tasks and one edge whose
endpoints are both among the supplied tasks. -/
def goodCreateCall : Except String String × Store :=
  create_task_graph emptyStore "g1" "n"
    [{ id := "a", name := "A", agentType := none, inputData := "" },
     { id := "b", name := "B", agentType := none, inputData := "" }]
    [{ taskId := "b", dependsOnTaskId := "a" }]

/-- Overwrite each task row's mutable execution fields — `status`,
`output_data`, `error_message` — as a function of its id, leaving
identity, `agent_type` and `input_data` unchanged.  This is exactly the
footprint a previous `execute_task_graph` call can leave on the `tasks`
table. -/
def overwriteTaskRows (f1 : String → String) (f2 f3 : String → Option JsonData)
    (s : Store) : Store :=
  { s with tasks := s.tasks.map (fun r =>
      { r with status := f1 r.id, outputData := f2 r.id, errorMessage := f3 r.id }) }

/-- A one-task context for exercising the dispatch machinery. -/
def schedCtxW : SchedCtx :=
  { taskIds := ["a"], deps := fun _ => [], succeeds := fun _ => true, maxParallel := 1 }

/-- A two-task context in which `a` depends on `b`. -/
def schedCtx2 : SchedCtx :=
  { taskIds := ["b", "a"], deps := fun t => if t = "a" then ["b"] else [],
    succeeds := fun _ => true, maxParallel := 1 }

/-- The coroutine for `b` created (ready-set dispatch). -/
def schedU1 : SchedState := setPhase schedStart "b" .waitingSem

/-- The coroutine for `b` holding the semaphore. -/
def schedU2 : SchedState := setPhase schedU1 "b" .holdingSem

/-- The coroutine for `b` past its dependency re-check. -/
def schedU3 : SchedState := setPhase schedU2 "b" .checkedDeps

/-- Task `b` marked running. -/
def schedU4 : SchedState := setPhase schedU3 "b" .runningTask

/-- Task `b` completed; its coroutine has released the semaphore. -/
def schedU5 : SchedState :=
  { setPhase schedU4 "b" .idle with completed := insert "b" schedU4.completed }

/-- The coroutine for `a` created, now that `b` is completed. -/
def schedU6 : SchedState := setPhase schedU5 "a" .waitingSem

/-- The coroutine for `a` holding the semaphore. -/
def schedU7 : SchedState := setPhase schedU6 "a" .holdingSem

/-- The coroutine for `a` past its dependency re-check. -/
def schedU8 : SchedState := setPhase schedU7 "a" .checkedDeps

/-!
## Theorems
-/

theorem updateTaskRow_updateTaskRow (s : Store) (tid : String)
    (f g : TaskRow → TaskRow) (hf : ∀ r, (f r).id = r.id) :
    updateTaskRow (updateTaskRow s tid f) tid g =
      updateTaskRow s tid (fun r => g (f r)) := by
  have hfun : ((fun r => if (r.id == tid) = true then g r else r) ∘
      (fun r => if (r.id == tid) = true then f r else r)) =
      fun r => if (r.id == tid) = true then g (f r) else r := by
    funext r
    by_cases h : r.id == tid
    · simp [Function.comp, h, hf r]
    · simp [Function.comp, h]
  simp only [updateTaskRow, List.map_map, hfun]

/-- Claim C9: inserting the same ordered dependency pair twice leaves the
store exactly as inserting it once — the duplicate insert is a no-op, not
an error (`ON CONFLICT DO NOTHING` against
`UNIQUE(task_id, depends_on_task_id)`). -/
theorem claim_C9_idempotent_edge_insert (s : Store) (e : TaskDependencyRow) :
    (insertTaskDependency s e).bind (fun s2 => insertTaskDependency s2 e) =
      insertTaskDependency s e := by
  by_cases h1 : s.tasks.any (fun t => t.id == e.taskId)
  · by_cases h2 : s.tasks.any (fun t => t.id == e.dependsOnTaskId)
    · by_cases h3 : s.taskDependencies.any
          (fun d => d.taskId == e.taskId && d.dependsOnTaskId == e.dependsOnTaskId)
      · have hfirst : insertTaskDependency s e = .ok s := by
          unfold insertTaskDependency
          rw [if_neg (by simp [h1]), if_neg (by simp [h2]), if_pos h3]
        rw [hfirst]
        show insertTaskDependency s e = Except.ok s
        exact hfirst
      · have hfirst : insertTaskDependency s e =
            .ok { s with taskDependencies := s.taskDependencies ++ [e] } := by
          unfold insertTaskDependency
          rw [if_neg (by simp [h1]), if_neg (by simp [h2]), if_neg (by simp [h3])]
        rw [hfirst]
        show insertTaskDependency { s with taskDependencies := s.taskDependencies ++ [e] } e =
          Except.ok { s with taskDependencies := s.taskDependencies ++ [e] }
        unfold insertTaskDependency
        rw [if_neg (by simp [h1]), if_neg (by simp [h2]),
          if_pos (by simp [List.any_append])]
    · have hfirst : insertTaskDependency s e =
          .error ("foreign key violation on depends_on_task_id " ++ e.dependsOnTaskId) := by
        unfold insertTaskDependency
        rw [if_neg (by simp [h1]), if_pos (by simp [h2])]
      rw [hfirst]
      rfl
  · have hfirst : insertTaskDependency s e =
        .error ("foreign key violation on task_id " ++ e.taskId) := by
      unfold insertTaskDependency
      rw [if_pos (by simp [h1])]
    rw [hfirst]
    rfl

/-- Claim C6: a dispatched task whose `agent_type` is null, empty, or
unregistered is marked `completed` — its capability invocation trivially
succeeds with no output, the bookkeeping adds it to `completed` (never to
`failed`), and its row is updated to status `completed` with `output_data`
and `error_message` untouched. -/
theorem claim_C6_unregistered_agent_completes (agents : AgentRegistry)
    (tasks : List TaskRow) (deps : String → List String) (st : ExecState)
    (tid : String) (task : TaskRow)
    (hfind : tasks.find? (fun t => t.id == tid) = some task)
    (hagent : noUsableAgent agents task)
    (hdeps : ∀ d ∈ deps tid, d ∈ st.completed) :
    runCapability agents task = .success none ∧
    execute_task agents tasks deps st tid =
      { store := updateTaskRow st.store tid (fun r => { r with status := "completed" }),
        completed := insert tid st.completed, failed := st.failed } := by
  have hcap : runCapability agents task = .success none := by
    unfold noUsableAgent at hagent
    cases hA : task.agentType with
    | none => simp [runCapability, hA]
    | some a =>
      rw [hA] at hagent
      rcases hagent with he | hl
      · simp [runCapability, hA, he]
      · by_cases he2 : a = ""
        · simp [runCapability, hA, he2]
        · simp [runCapability, hA, he2, hl]
  refine ⟨hcap, ?_⟩
  have hall : (deps tid).all (fun d => decide (d ∈ st.completed)) = true := by
    rw [List.all_eq_true]
    intro d hd
    exact decide_eq_true (hdeps d hd)
  unfold execute_task
  rw [hfind]
  simp only [hall, if_true, hcap]
  rw [updateTaskRow_updateTaskRow st.store tid
    (fun r => { r with status := "running" })
    (fun r => { r with status := "completed" })
    (fun r => rfl)]

/-- Claim C6 witness: a concrete dispatch of a task with no agent type. -/
theorem claim_C6_unregistered_agent_completes_witness :
    runCapability [] (mkTaskRow "a" none) = .success none ∧
    execute_task [] [mkTaskRow "a" none] (fun _ => [])
        { store := emptyStore, completed := ∅, failed := ∅ } "a" =
      { store := updateTaskRow emptyStore "a" (fun r => { r with status := "completed" }),
        completed := insert "a" (∅ : Finset String), failed := ∅ } :=
  claim_C6_unregistered_agent_completes [] [mkTaskRow "a" none] (fun _ => [])
    { store := emptyStore, completed := ∅, failed := ∅ } "a" (mkTaskRow "a" none)
    (by decide) (by simp [noUsableAgent, mkTaskRow]) (by simp)

/-- Claim C1 counterexample: on a two-task dependency cycle no task ever
becomes ready, the loop exits through the stall branch with zero failures,
and line 261 (`"completed" if len(failed) == 0`) marks the graph
`completed` even though no task completed — refuting `completed only if
every task is completed; otherwise failed`. -/
theorem claim_C1_counterexample :
    exceptView (fun r =>
        (r.summary.status, r.summary.completed, r.summary.failed, r.summary.total))
      (execute_task_graph_core [] cyclicStore "g1" 10) =
      some ("completed", 0, 0, 2) ∧ (0 : Nat) ≠ 2 := by
  constructor
  · decide
  · decide

/-- Claim C2 counterexample: `chainStore` is acyclic (`chainRank` is a
topological rank for it), yet when `a`'s capability raises its dependent
`b` never reaches a terminal state: the call returns
`completed + failed = 1` against `total = 2`. -/
theorem claim_C2_counterexample :
    (∀ row ∈ chainStore.tasks, ∀ d ∈ graphDeps chainStore "g1" row.id,
      chainRank d < chainRank row.id) ∧
    exceptView (fun r => (r.summary.completed + r.summary.failed, r.summary.total))
      (execute_task_graph_core boomAgents chainStore "g1" 10) = some (1, 2) := by
  constructor
  · decide
  · decide

/-- Claim C3 counterexample: a call whose dependency edge references the
absent endpoint `b` does raise (the edge insert violates the foreign key),
but because every insert auto-commits, the graph row and the task row are
already persisted when the call fails — the rejected input leaves a
partially created graph behind, refuting `rejects the input rather than
persisting the graph`. -/
theorem claim_C3_counterexample :
    exceptOk badCreateCall.1 = false ∧
    badCreateCall.2.taskGraphs = [{ id := "g1", name := "n", status := "pending" }] ∧
    badCreateCall.2.tasks.length = 1 := by
  refine ⟨?_, ?_, ?_⟩ <;> decide

theorem execute_task_sets (agents : AgentRegistry) (tasks : List TaskRow)
    (deps : String → List String) (st : ExecState) (tid : String) (task : TaskRow)
    (hfind : tasks.find? (fun t => t.id == tid) = some task)
    (hdeps : ∀ d ∈ deps tid, d ∈ st.completed) :
    (execute_task agents tasks deps st tid).completed =
      (if succeedsB agents task then insert tid st.completed else st.completed) ∧
    (execute_task agents tasks deps st tid).failed =
      (if succeedsB agents task then st.failed else insert tid st.failed) := by
  have hall : (deps tid).all (fun d => decide (d ∈ st.completed)) = true := by
    rw [List.all_eq_true]
    exact fun d hd => decide_eq_true (hdeps d hd)
  unfold execute_task
  rw [hfind]
  simp only [hall, if_true]
  cases hc : runCapability agents task with
  | success o => cases o <;> simp [succeedsB, hc]
  | failure e => simp [succeedsB, hc]

theorem execute_task_mono (agents : AgentRegistry) (tasks : List TaskRow)
    (deps : String → List String) (st : ExecState) (tid : String) :
    st.completed ⊆ (execute_task agents tasks deps st tid).completed ∧
    st.failed ⊆ (execute_task agents tasks deps st tid).failed := by
  unfold execute_task
  cases hf : tasks.find? (fun t => t.id == tid) with
  | none => simp
  | some task =>
    by_cases hall : (deps tid).all (fun d => decide (d ∈ st.completed)) = true
    · simp only [hall, if_true]
      cases hc : runCapability agents task with
      | success o => cases o <;> simp [Finset.subset_insert]
      | failure e => simp [Finset.subset_insert]
    · simp [hall]

theorem readyTasks_mem (tasks : List TaskRow) (deps : String → List String)
    (st : ExecState) (x : String) :
    x ∈ readyTasks tasks deps st ↔
      x ∈ tasks.map (fun t => t.id) ∧ x ∉ st.completed ∧ x ∉ st.failed ∧
        ∀ d ∈ deps x, d ∈ st.completed := by
  simp [readyTasks, List.mem_filter, List.all_eq_true, and_assoc]

theorem find_of_mem_ids (tasks : List TaskRow) (x : String)
    (hx : x ∈ tasks.map (fun t => t.id)) :
    ∃ task ∈ tasks, tasks.find? (fun t => t.id == x) = some task ∧ task.id = x := by
  obtain ⟨t, ht, rfl⟩ := List.mem_map.mp hx
  have hsome : (tasks.find? (fun r => r.id == t.id)).isSome := by
    rw [List.find?_isSome]
    exact ⟨t, ht, by simp⟩
  obtain ⟨task, htask⟩ := Option.isSome_iff_exists.mp hsome
  refine ⟨task, List.mem_of_find?_eq_some htask, htask, ?_⟩
  have := List.find?_some htask
  simpa using this

theorem succeedsId_of_find (agents : AgentRegistry) (tasks : List TaskRow)
    (tid : String) (task : TaskRow)
    (hfind : tasks.find? (fun t => t.id == tid) = some task) :
    succeedsId agents tasks tid = succeedsB agents task := by
  simp [succeedsId, hfind]

theorem execRound_mem (agents : AgentRegistry) (tasks : List TaskRow)
    (deps : String → List String) :
    ∀ (R : List String) (st : ExecState),
      (∀ tid ∈ R, tid ∈ tasks.map (fun t => t.id)) →
      (∀ tid ∈ R, ∀ d ∈ deps tid, d ∈ st.completed) →
      ∀ x : String,
      (x ∈ (execRound agents tasks deps R st).completed ↔
        x ∈ st.completed ∨ (x ∈ R ∧ succeedsId agents tasks x = true)) ∧
      (x ∈ (execRound agents tasks deps R st).failed ↔
        x ∈ st.failed ∨ (x ∈ R ∧ succeedsId agents tasks x = false)) := by
  intro R
  induction R with
  | nil =>
    intro st _ _ x
    simp [execRound]
  | cons tid rest ih =>
    intro st hfound hdep x
    obtain ⟨task, _, htask, _⟩ :=
      find_of_mem_ids tasks tid (hfound tid (List.mem_cons_self tid rest))
    have hstep := execute_task_sets agents tasks deps st tid task htask
      (hdep tid (List.mem_cons_self tid rest))
    have hsid : succeedsId agents tasks tid = succeedsB agents task :=
      succeedsId_of_find agents tasks tid task htask
    have hmono := execute_task_mono agents tasks deps st tid
    have hre := ih (execute_task agents tasks deps st tid)
      (fun t ht => hfound t (List.mem_cons_of_mem tid ht))
      (fun t ht d hd => hmono.1 (hdep t (List.mem_cons_of_mem tid ht) d hd)) x
    show (x ∈ (execRound agents tasks deps rest (execute_task agents tasks deps st tid)).completed ↔ _) ∧
      (x ∈ (execRound agents tasks deps rest (execute_task agents tasks deps st tid)).failed ↔ _)
    rcases Bool.eq_false_or_eq_true (succeedsB agents task) with hs | hs
    · rw [if_pos hs, if_pos hs] at hstep
      rw [hs] at hsid
      constructor
      · rw [hre.1, hstep.1]
        by_cases hx : x = tid
        · subst hx
          simp [hsid]
        · simp only [Finset.mem_insert, hx, false_or, List.mem_cons]
      · rw [hre.2, hstep.2]
        by_cases hx : x = tid
        · subst hx
          simp [hsid]
        · simp only [List.mem_cons, hx, false_or]
    · have hs2 : ¬ (succeedsB agents task = true) := by simp [hs]
      rw [if_neg hs2, if_neg hs2] at hstep
      rw [hs] at hsid
      constructor
      · rw [hre.1, hstep.1]
        by_cases hx : x = tid
        · subst hx
          simp [hsid]
        · simp only [List.mem_cons, hx, false_or]
      · rw [hre.2, hstep.2]
        by_cases hx : x = tid
        · subst hx
          simp [hsid]
        · simp only [Finset.mem_insert, hx, false_or, List.mem_cons]

theorem execLoop_succ (agents : AgentRegistry) (tasks : List TaskRow)
    (deps : String → List String) (fuel : Nat) (st : ExecState) :
    execLoop agents tasks deps (fuel + 1) st =
      if st.completed.card + st.failed.card < tasks.length then
        (if (readyTasks tasks deps st).isEmpty then st
         else execLoop agents tasks deps fuel
           (execRound agents tasks deps (readyTasks tasks deps st) st))
      else st := rfl

theorem execLoop_spec (agents : AgentRegistry) (tasks : List TaskRow)
    (deps : String → List String) (S : Finset String)
    (hS : ∀ x ∈ S, succeedsId agents tasks x = true) :
    ∀ (fuel : Nat) (st : ExecState),
      st.completed ∪ st.failed ⊆ (tasks.map (fun t => t.id)).toFinset →
      Disjoint st.completed st.failed →
      (∀ x ∈ S, x ∉ st.failed) →
      tasks.length - (st.completed.card + st.failed.card) ≤ fuel →
      (execLoop agents tasks deps fuel st).completed ∪
          (execLoop agents tasks deps fuel st).failed ⊆
        (tasks.map (fun t => t.id)).toFinset ∧
      Disjoint (execLoop agents tasks deps fuel st).completed
        (execLoop agents tasks deps fuel st).failed ∧
      (∀ x ∈ S, x ∉ (execLoop agents tasks deps fuel st).failed) ∧
      (tasks.length ≤ (execLoop agents tasks deps fuel st).completed.card +
          (execLoop agents tasks deps fuel st).failed.card ∨
        readyTasks tasks deps (execLoop agents tasks deps fuel st) = []) := by
  intro fuel
  induction fuel with
  | zero =>
    intro st hsub hdisj hSf hfuel
    have h0 : execLoop agents tasks deps 0 st = st := rfl
    rw [h0]
    exact ⟨hsub, hdisj, hSf, Or.inl (by omega)⟩
  | succ fuel ih =>
    intro st hsub hdisj hSf hfuel
    rw [execLoop_succ]
    by_cases hcond : st.completed.card + st.failed.card < tasks.length
    · rw [if_pos hcond]
      by_cases hready : (readyTasks tasks deps st).isEmpty = true
      · rw [if_pos hready]
        exact ⟨hsub, hdisj, hSf, Or.inr (List.isEmpty_iff.mp hready)⟩
      · rw [if_neg hready]
        have hne : readyTasks tasks deps st ≠ [] := by
          intro h
          exact hready (by simp [h])
        have hfoundR : ∀ tid ∈ readyTasks tasks deps st, tid ∈ tasks.map (fun t => t.id) :=
          fun tid ht => ((readyTasks_mem tasks deps st tid).mp ht).1
        have hdepR : ∀ tid ∈ readyTasks tasks deps st, ∀ d ∈ deps tid, d ∈ st.completed :=
          fun tid ht => ((readyTasks_mem tasks deps st tid).mp ht).2.2.2
        have hmem := execRound_mem agents tasks deps (readyTasks tasks deps st) st hfoundR hdepR
        have hsub2 : (execRound agents tasks deps (readyTasks tasks deps st) st).completed ∪
            (execRound agents tasks deps (readyTasks tasks deps st) st).failed ⊆
            (tasks.map (fun t => t.id)).toFinset := by
          intro x hx
          rcases Finset.mem_union.mp hx with h | h
          · rcases (hmem x).1.mp h with h2 | h2
            · exact hsub (Finset.mem_union_left _ h2)
            · exact List.mem_toFinset.mpr (hfoundR x h2.1)
          · rcases (hmem x).2.mp h with h2 | h2
            · exact hsub (Finset.mem_union_right _ h2)
            · exact List.mem_toFinset.mpr (hfoundR x h2.1)
        have hdisj2 : Disjoint (execRound agents tasks deps (readyTasks tasks deps st) st).completed
            (execRound agents tasks deps (readyTasks tasks deps st) st).failed := by
          rw [Finset.disjoint_left]
          intro x hxc hxf
          rcases (hmem x).1.mp hxc with h1 | h1 <;> rcases (hmem x).2.mp hxf with h2 | h2
          · exact Finset.disjoint_left.mp hdisj h1 h2
          · exact ((readyTasks_mem tasks deps st x).mp h2.1).2.1 h1
          · exact ((readyTasks_mem tasks deps st x).mp h1.1).2.2.1 h2
          · rw [h1.2] at h2
            exact absurd h2.2 (by simp)
        have hSf2 : ∀ x ∈ S,
            x ∉ (execRound agents tasks deps (readyTasks tasks deps st) st).failed := by
          intro x hxS hxf
          rcases (hmem x).2.mp hxf with h | h
          · exact hSf x hxS h
          · rw [hS x hxS] at h
            exact absurd h.2 (by simp)
        obtain ⟨t0, ht0⟩ : ∃ t0, t0 ∈ readyTasks tasks deps st :=
          List.exists_mem_of_ne_nil _ hne
        have ht0r := (readyTasks_mem tasks deps st t0).mp ht0
        have ht0new : t0 ∉ st.completed ∪ st.failed := by
          rw [Finset.mem_union]
          rintro (h | h)
          · exact ht0r.2.1 h
          · exact ht0r.2.2.1 h
        have ht0in : t0 ∈ (execRound agents tasks deps (readyTasks tasks deps st) st).completed ∪
            (execRound agents tasks deps (readyTasks tasks deps st) st).failed := by
          rcases Bool.eq_false_or_eq_true (succeedsId agents tasks t0) with h | h
          · exact Finset.mem_union_left _ ((hmem t0).1.mpr (Or.inr ⟨ht0, h⟩))
          · exact Finset.mem_union_right _ ((hmem t0).2.mpr (Or.inr ⟨ht0, h⟩))
        have hmonoU : st.completed ∪ st.failed ⊆
            (execRound agents tasks deps (readyTasks tasks deps st) st).completed ∪
            (execRound agents tasks deps (readyTasks tasks deps st) st).failed := by
          intro x hx
          rcases Finset.mem_union.mp hx with h | h
          · exact Finset.mem_union_left _ ((hmem x).1.mpr (Or.inl h))
          · exact Finset.mem_union_right _ ((hmem x).2.mpr (Or.inl h))
        have hcard : st.completed.card + st.failed.card + 1 ≤
            (execRound agents tasks deps (readyTasks tasks deps st) st).completed.card +
            (execRound agents tasks deps (readyTasks tasks deps st) st).failed.card := by
          rw [← Finset.card_union_of_disjoint hdisj, ← Finset.card_union_of_disjoint hdisj2]
          have hsubset : insert t0 (st.completed ∪ st.failed) ⊆
              (execRound agents tasks deps (readyTasks tasks deps st) st).completed ∪
              (execRound agents tasks deps (readyTasks tasks deps st) st).failed := by
            rw [Finset.insert_subset_iff]
            exact ⟨ht0in, hmonoU⟩
          have hle := Finset.card_le_card hsubset
          rw [Finset.card_insert_of_not_mem ht0new] at hle
          exact hle
        exact ih (execRound agents tasks deps (readyTasks tasks deps st) st)
          hsub2 hdisj2 hSf2 (by omega)
    · rw [if_neg hcond]
      exact ⟨hsub, hdisj, hSf, Or.inl (by omega)⟩

theorem exit_closed (tasks : List TaskRow) (deps : String → List String)
    (rank : String → Nat)
    (hrank : ∀ x ∈ tasks.map (fun t => t.id), ∀ d ∈ deps x, rank d < rank x)
    (hnodup : (tasks.map (fun t => t.id)).Nodup)
    (S : Finset String)
    (hSsub : S ⊆ (tasks.map (fun t => t.id)).toFinset)
    (hSclosed : ∀ x ∈ S, ∀ d ∈ deps x, d ∈ S)
    (st : ExecState)
    (hsub : st.completed ∪ st.failed ⊆ (tasks.map (fun t => t.id)).toFinset)
    (hdisj : Disjoint st.completed st.failed)
    (hSf : ∀ x ∈ S, x ∉ st.failed)
    (hexit : tasks.length ≤ st.completed.card + st.failed.card ∨
      readyTasks tasks deps st = []) :
    S ⊆ st.completed := by
  by_contra hcon
  have hne : (S.filter (fun x => x ∉ st.completed)).Nonempty := by
    rw [Finset.filter_nonempty_iff]
    rw [Finset.not_subset] at hcon
    obtain ⟨x, hx1, hx2⟩ := hcon
    exact ⟨x, hx1, hx2⟩
  obtain ⟨t, htT, hmin⟩ := Finset.exists_min_image _ rank hne
  rw [Finset.mem_filter] at htT
  have htS := htT.1
  have htC := htT.2
  have htF : t ∉ st.failed := hSf t htS
  have htids : t ∈ tasks.map (fun t2 => t2.id) := List.mem_toFinset.mp (hSsub htS)
  have hdeps : ∀ d ∈ deps t, d ∈ st.completed := by
    intro d hd
    have hdS : d ∈ S := hSclosed t htS d hd
    by_contra hdc
    have hdT : d ∈ S.filter (fun x => x ∉ st.completed) :=
      Finset.mem_filter.mpr ⟨hdS, hdc⟩
    have h1 := hmin d hdT
    have h2 := hrank t htids d hd
    omega
  have hready : t ∈ readyTasks tasks deps st :=
    (readyTasks_mem tasks deps st t).mpr ⟨htids, htC, htF, hdeps⟩
  rcases hexit with hall | hempty
  · have hcards : st.completed.card + st.failed.card = (st.completed ∪ st.failed).card :=
      (Finset.card_union_of_disjoint hdisj).symm
    have hlen : ((tasks.map (fun t2 => t2.id)).toFinset).card = tasks.length := by
      rw [List.toFinset_card_of_nodup hnodup, List.length_map]
    have hle : ((tasks.map (fun t2 => t2.id)).toFinset).card ≤
        (st.completed ∪ st.failed).card := by
      omega
    have hequ : st.completed ∪ st.failed = (tasks.map (fun t2 => t2.id)).toFinset :=
      Finset.eq_of_subset_of_card_le hsub hle
    have hmem2 : t ∈ st.completed ∪ st.failed := by
      rw [hequ]
      exact List.mem_toFinset.mpr htids
    rcases Finset.mem_union.mp hmem2 with h | h
    · exact htC h
    · exact htF h
  · rw [hempty] at hready
    exact absurd hready (List.not_mem_nil t)

theorem execLoop_exit_stable (agents : AgentRegistry) (tasks : List TaskRow)
    (deps : String → List String) (st : ExecState)
    (hexit : tasks.length ≤ st.completed.card + st.failed.card ∨
      readyTasks tasks deps st = []) :
    ∀ fuel, execLoop agents tasks deps fuel st = st := by
  intro fuel
  cases fuel with
  | zero => rfl
  | succ fuel =>
    rw [execLoop_succ]
    rcases hexit with h | h
    · rw [if_neg (by omega)]
    · by_cases hcond : st.completed.card + st.failed.card < tasks.length
      · rw [if_pos hcond, if_pos (by simp [h])]
      · rw [if_neg hcond]

theorem execLoop_add (agents : AgentRegistry) (tasks : List TaskRow)
    (deps : String → List String) :
    ∀ (a b : Nat) (st : ExecState),
      execLoop agents tasks deps (a + b) st =
        execLoop agents tasks deps b (execLoop agents tasks deps a st) := by
  intro a
  induction a with
  | zero =>
    intro b st
    rw [Nat.zero_add]
    rfl
  | succ a ih =>
    intro b st
    rw [Nat.succ_add, execLoop_succ, execLoop_succ]
    by_cases hcond : st.completed.card + st.failed.card < tasks.length
    · rw [if_pos hcond, if_pos hcond]
      by_cases hready : (readyTasks tasks deps st).isEmpty = true
      · rw [if_pos hready, if_pos hready]
        exact (execLoop_exit_stable agents tasks deps st
          (Or.inr (List.isEmpty_iff.mp hready)) b).symm
      · rw [if_neg hready, if_neg hready]
        exact ih b (execRound agents tasks deps (readyTasks tasks deps st) st)
    · rw [if_neg hcond, if_neg hcond]
      exact (execLoop_exit_stable agents tasks deps st (Or.inl (by omega)) b).symm

theorem core_eq_of_found (agents : AgentRegistry) (s : Store) (gid : String)
    (mp : Nat) (g : TaskGraphRow)
    (hfound : s.taskGraphs.find? (fun g2 => g2.id == gid) = some g) :
    execute_task_graph_core agents s gid mp = .ok
      { summary := { graphId := gid,
                     status := (if (finalExecState agents s gid).failed.card = 0
                       then "completed" else "failed"),
                     completed := (finalExecState agents s gid).completed.card,
                     failed := (finalExecState agents s gid).failed.card,
                     total := (graphTaskRows s gid).length },
        completedSet := (finalExecState agents s gid).completed,
        failedSet := (finalExecState agents s gid).failed,
        finalStore := updateGraphRow (finalExecState agents s gid).store gid
          (fun g2 => { g2 with status := (if (finalExecState agents s gid).failed.card = 0
            then "completed" else "failed") }) } := by
  unfold execute_task_graph_core
  rw [hfound]

theorem initExecState_spec (agents : AgentRegistry) (s : Store) (gid : String) :
    (initExecState s gid).completed ∪ (initExecState s gid).failed ⊆
      ((graphTaskRows s gid).map (fun t => t.id)).toFinset ∧
    Disjoint (initExecState s gid).completed (initExecState s gid).failed ∧
    (graphTaskRows s gid).length -
      ((initExecState s gid).completed.card + (initExecState s gid).failed.card) ≤
      (graphTaskRows s gid).length := by
  refine ⟨?_, ?_, ?_⟩
  · intro x hx
    simp [initExecState] at hx
  · simp [initExecState]
  · simp [initExecState]

/-- Claim C2 amended: for every graph (the loop stalls rather than
spinning, so no acyclicity is needed for termination) the execution loop
reaches its fixpoint within `total` rounds — extra fuel changes nothing —
and the returned summary satisfies `completed + failed ≤ total`; the
claimed equality `completed + failed = total` holds under the additional
assumption that every task's capability invocation succeeds (then also
`failed = 0`), but not in general: a failed task's dependents never become
terminal (see the counterexample). -/
theorem claim_C2_amended (agents : AgentRegistry) (s : Store) (gid : String)
    (mp : Nat) (g : TaskGraphRow) (rank : String → Nat)
    (hfound : s.taskGraphs.find? (fun g2 => g2.id == gid) = some g)
    (hnodup : ((graphTaskRows s gid).map (fun t => t.id)).Nodup) :
    (∀ k, execLoop agents (graphTaskRows s gid) (graphDeps s gid)
        ((graphTaskRows s gid).length + k) (initExecState s gid) =
        finalExecState agents s gid) ∧
    (∀ r, execute_task_graph_core agents s gid mp = .ok r →
      r.summary.completed + r.summary.failed ≤ r.summary.total) ∧
    ((∀ x ∈ (graphTaskRows s gid).map (fun t => t.id),
        ∀ d ∈ graphDeps s gid x, rank d < rank x) →
      (∀ x ∈ (graphTaskRows s gid).map (fun t => t.id),
        ∀ d ∈ graphDeps s gid x, d ∈ (graphTaskRows s gid).map (fun t => t.id)) →
      (∀ row ∈ graphTaskRows s gid, succeedsB agents row = true) →
      ∀ r, execute_task_graph_core agents s gid mp = .ok r →
        r.summary.completed = r.summary.total ∧ r.summary.failed = 0) := by
  have hinit := initExecState_spec agents s gid
  have hF : execLoop agents (graphTaskRows s gid) (graphDeps s gid)
      (graphTaskRows s gid).length (initExecState s gid) = finalExecState agents s gid := rfl
  have hspec0 := execLoop_spec agents (graphTaskRows s gid) (graphDeps s gid) ∅
    (by simp) (graphTaskRows s gid).length (initExecState s gid)
    hinit.1 hinit.2.1 (by simp) hinit.2.2
  rw [hF] at hspec0
  have hcards : (finalExecState agents s gid).completed.card +
      (finalExecState agents s gid).failed.card ≤ (graphTaskRows s gid).length := by
    have h1 := Finset.card_union_of_disjoint hspec0.2.1
    have h2 := Finset.card_le_card hspec0.1
    have h3 : (((graphTaskRows s gid).map (fun t => t.id)).toFinset).card =
        (graphTaskRows s gid).length := by
      rw [List.toFinset_card_of_nodup hnodup, List.length_map]
    omega
  refine ⟨?_, ?_, ?_⟩
  · intro k
    rw [execLoop_add, hF]
    exact execLoop_exit_stable agents (graphTaskRows s gid) (graphDeps s gid)
      (finalExecState agents s gid) hspec0.2.2.2 k
  · intro r hr
    rw [core_eq_of_found agents s gid mp g hfound] at hr
    injection hr with h
    subst h
    exact hcards
  · intro hrank hwf hsucc r hr
    rw [core_eq_of_found agents s gid mp g hfound] at hr
    injection hr with h
    subst h
    have hS : ∀ x ∈ ((graphTaskRows s gid).map (fun t => t.id)).toFinset,
        succeedsId agents (graphTaskRows s gid) x = true := by
      intro x hx
      obtain ⟨row, hrow, hfind, _⟩ :=
        find_of_mem_ids (graphTaskRows s gid) x (List.mem_toFinset.mp hx)
      rw [succeedsId_of_find agents (graphTaskRows s gid) x row hfind]
      exact hsucc row hrow
    have hspec := execLoop_spec agents (graphTaskRows s gid) (graphDeps s gid)
      (((graphTaskRows s gid)).map (fun t => t.id)).toFinset hS
      (graphTaskRows s gid).length (initExecState s gid)
      hinit.1 hinit.2.1 (by simp [initExecState]) hinit.2.2
    rw [hF] at hspec
    have hclosed := exit_closed (graphTaskRows s gid) (graphDeps s gid) rank hrank hnodup
      (((graphTaskRows s gid)).map (fun t => t.id)).toFinset (fun x hx => hx)
      (fun x hx d hd => List.mem_toFinset.mpr (hwf x (List.mem_toFinset.mp hx) d hd))
      (finalExecState agents s gid) hspec.1 hspec.2.1 hspec.2.2.1 hspec.2.2.2
    have hcomp : (finalExecState agents s gid).completed =
        ((graphTaskRows s gid).map (fun t => t.id)).toFinset := by
      apply Finset.Subset.antisymm
      · intro x hx
        exact hspec.1 (Finset.mem_union_left _ hx)
      · exact hclosed
    have hfail : (finalExecState agents s gid).failed = ∅ := by
      rw [Finset.eq_empty_iff_forall_not_mem]
      intro x hx
      have hxin : x ∈ ((graphTaskRows s gid).map (fun t => t.id)).toFinset :=
        hspec.1 (Finset.mem_union_right _ hx)
      exact hspec.2.2.1 x hxin hx
    constructor
    · show (finalExecState agents s gid).completed.card = (graphTaskRows s gid).length
      rw [hcomp, List.toFinset_card_of_nodup hnodup, List.length_map]
    · show (finalExecState agents s gid).failed.card = 0
      rw [hfail]
      rfl

/-- Claim C2 amended, witness: the two-task chain with an empty registry
(no capability raises, since unregistered agent types trivially succeed);
one extra unit of fuel changes nothing, the counts are bounded by the
total, and with every invocation succeeding both tasks complete. -/
theorem claim_C2_amended_witness :
    (execLoop [] (graphTaskRows chainStore "g1") (graphDeps chainStore "g1")
        ((graphTaskRows chainStore "g1").length + 1) (initExecState chainStore "g1") =
      finalExecState [] chainStore "g1") ∧
    ((finalExecState [] chainStore "g1").completed.card +
        (finalExecState [] chainStore "g1").failed.card ≤
      (graphTaskRows chainStore "g1").length) ∧
    ((finalExecState [] chainStore "g1").completed.card =
        (graphTaskRows chainStore "g1").length ∧
      (finalExecState [] chainStore "g1").failed.card = 0) := by
  have h := claim_C2_amended [] chainStore "g1" 10 { id := "g1", name := "chain", status := "pending" }
    chainRank (by decide) (by decide)
  exact ⟨h.1 1,
    h.2.1 _ (core_eq_of_found [] chainStore "g1" 10
      { id := "g1", name := "chain", status := "pending" } (by decide)),
    h.2.2 (by decide) (by decide) (by decide) _
      (core_eq_of_found [] chainStore "g1" 10
        { id := "g1", name := "chain", status := "pending" } (by decide))⟩

/-- Claim C1 amended: the graph-level status is `completed` if and only if
no task failed during the call (line 261 tests `len(failed) == 0`); for a
well-formed acyclic graph this coincides with the claim's wording —
`completed` exactly when every task completed — because a stall without
failures is impossible there.  For cyclic graphs the claim fails (see the
counterexample): a clean stall is also marked `completed`. -/
theorem claim_C1_amended (agents : AgentRegistry) (s : Store) (gid : String)
    (mp : Nat) (g : TaskGraphRow) (rank : String → Nat)
    (hfound : s.taskGraphs.find? (fun g2 => g2.id == gid) = some g)
    (hnodup : ((graphTaskRows s gid).map (fun t => t.id)).Nodup)
    (hrank : ∀ x ∈ (graphTaskRows s gid).map (fun t => t.id),
      ∀ d ∈ graphDeps s gid x, rank d < rank x)
    (hwf : ∀ x ∈ (graphTaskRows s gid).map (fun t => t.id),
      ∀ d ∈ graphDeps s gid x, d ∈ (graphTaskRows s gid).map (fun t => t.id)) :
    ∀ r, execute_task_graph_core agents s gid mp = .ok r →
      (r.summary.status = "completed" ↔ r.summary.completed = r.summary.total) := by
  intro r hr
  rw [core_eq_of_found agents s gid mp g hfound] at hr
  injection hr with h
  subst h
  have hinit := initExecState_spec agents s gid
  have hF : execLoop agents (graphTaskRows s gid) (graphDeps s gid)
      (graphTaskRows s gid).length (initExecState s gid) = finalExecState agents s gid := rfl
  have hspec := execLoop_spec agents (graphTaskRows s gid) (graphDeps s gid) ∅
    (by simp) (graphTaskRows s gid).length (initExecState s gid)
    hinit.1 hinit.2.1 (by simp) hinit.2.2
  rw [hF] at hspec
  have hlen : (((graphTaskRows s gid).map (fun t => t.id)).toFinset).card =
      (graphTaskRows s gid).length := by
    rw [List.toFinset_card_of_nodup hnodup, List.length_map]
  show ((if (finalExecState agents s gid).failed.card = 0 then "completed" else "failed") =
      "completed") ↔
    (finalExecState agents s gid).completed.card = (graphTaskRows s gid).length
  constructor
  · intro hst
    have hzero : (finalExecState agents s gid).failed.card = 0 := by
      by_contra hnz
      rw [if_neg hnz] at hst
      exact absurd hst (by decide)
    have hfail : (finalExecState agents s gid).failed = ∅ := Finset.card_eq_zero.mp hzero
    have hclosed := exit_closed (graphTaskRows s gid) (graphDeps s gid) rank hrank hnodup
      (((graphTaskRows s gid)).map (fun t => t.id)).toFinset (fun x hx => hx)
      (fun x hx d hd => List.mem_toFinset.mpr (hwf x (List.mem_toFinset.mp hx) d hd))
      (finalExecState agents s gid) hspec.1 hspec.2.1
      (by rw [hfail]; intro x _ hc; exact absurd hc (Finset.not_mem_empty x))
      hspec.2.2.2
    have hcomp : (finalExecState agents s gid).completed =
        ((graphTaskRows s gid).map (fun t => t.id)).toFinset := by
      apply Finset.Subset.antisymm
      · intro x hx
        exact hspec.1 (Finset.mem_union_left _ hx)
      · exact hclosed
    rw [hcomp, hlen]
  · intro hcard
    have hcomp : (finalExecState agents s gid).completed =
        ((graphTaskRows s gid).map (fun t => t.id)).toFinset := by
      apply Finset.eq_of_subset_of_card_le
      · intro x hx
        exact hspec.1 (Finset.mem_union_left _ hx)
      · omega
    have hfail : (finalExecState agents s gid).failed = ∅ := by
      rw [Finset.eq_empty_iff_forall_not_mem]
      intro x hx
      have hxc : x ∈ (finalExecState agents s gid).completed := by
        rw [hcomp]
        exact hspec.1 (Finset.mem_union_right _ hx)
      exact Finset.disjoint_left.mp hspec.2.1 hxc hx
    rw [if_pos (by rw [hfail]; rfl)]

/-- Claim C1 amended, witness: the same chain graph with the empty
registry — zero failures, status `completed`, and indeed every task
completed. -/
theorem claim_C1_amended_witness :
    ((if (finalExecState [] chainStore "g1").failed.card = 0
        then "completed" else "failed") = "completed") ↔
      (finalExecState [] chainStore "g1").completed.card =
        (graphTaskRows chainStore "g1").length :=
  claim_C1_amended [] chainStore "g1" 10 { id := "g1", name := "chain", status := "pending" }
    chainRank (by decide) (by decide) (by decide) (by decide) _
    (core_eq_of_found [] chainStore "g1" 10
      { id := "g1", name := "chain", status := "pending" } (by decide))

/-- Claim C7: failure isolation.  On a well-formed acyclic graph in which
only task X's capability can raise, every task with no dependency path to
X and no path from X still ends the call in the `completed` set. -/
theorem claim_C7_failure_isolation (agents : AgentRegistry) (s : Store)
    (gid : String) (mp : Nat) (g : TaskGraphRow) (rank : String → Nat) (X : String)
    (hfound : s.taskGraphs.find? (fun g2 => g2.id == gid) = some g)
    (hnodup : ((graphTaskRows s gid).map (fun t => t.id)).Nodup)
    (hrank : ∀ x ∈ (graphTaskRows s gid).map (fun t => t.id),
      ∀ d ∈ graphDeps s gid x, rank d < rank x)
    (hwf : ∀ x ∈ (graphTaskRows s gid).map (fun t => t.id),
      ∀ d ∈ graphDeps s gid x, d ∈ (graphTaskRows s gid).map (fun t => t.id))
    (hothers : ∀ row ∈ graphTaskRows s gid, row.id ≠ X → succeedsB agents row = true) :
    ∀ r, execute_task_graph_core agents s gid mp = .ok r →
      ∀ t ∈ (graphTaskRows s gid).map (fun t2 => t2.id),
        ¬ Reaches (graphDeps s gid) t X → ¬ Reaches (graphDeps s gid) X t →
        t ∈ r.completedSet := by
  classical
  intro r hr t htmem htX hXt
  rw [core_eq_of_found agents s gid mp g hfound] at hr
  injection hr with h
  subst h
  show t ∈ (finalExecState agents s gid).completed
  have hinit := initExecState_spec agents s gid
  have hF : execLoop agents (graphTaskRows s gid) (graphDeps s gid)
      (graphTaskRows s gid).length (initExecState s gid) = finalExecState agents s gid := rfl
  have hS : ∀ x ∈ ((graphTaskRows s gid).map (fun t2 => t2.id)).toFinset.filter
      (fun x => ¬ Reaches (graphDeps s gid) x X),
      succeedsId agents (graphTaskRows s gid) x = true := by
    intro x hx
    rw [Finset.mem_filter] at hx
    obtain ⟨row, hrow, hfind, hid⟩ :=
      find_of_mem_ids (graphTaskRows s gid) x (List.mem_toFinset.mp hx.1)
    rw [succeedsId_of_find agents (graphTaskRows s gid) x row hfind]
    apply hothers row hrow
    rw [hid]
    intro hxX
    exact hx.2 (hxX ▸ Relation.ReflTransGen.refl)
  have hSclosed : ∀ x ∈ ((graphTaskRows s gid).map (fun t2 => t2.id)).toFinset.filter
      (fun x => ¬ Reaches (graphDeps s gid) x X),
      ∀ d ∈ graphDeps s gid x,
        d ∈ ((graphTaskRows s gid).map (fun t2 => t2.id)).toFinset.filter
          (fun x => ¬ Reaches (graphDeps s gid) x X) := by
    intro x hx d hd
    rw [Finset.mem_filter] at hx
    rw [Finset.mem_filter]
    refine ⟨List.mem_toFinset.mpr (hwf x (List.mem_toFinset.mp hx.1) d hd), ?_⟩
    intro hdX
    exact hx.2 (Relation.ReflTransGen.head hd hdX)
  have hspec := execLoop_spec agents (graphTaskRows s gid) (graphDeps s gid) _ hS
    (graphTaskRows s gid).length (initExecState s gid)
    hinit.1 hinit.2.1 (by simp [initExecState]) hinit.2.2
  rw [hF] at hspec
  have hclosed := exit_closed (graphTaskRows s gid) (graphDeps s gid) rank hrank hnodup
    _ (Finset.filter_subset _ _) hSclosed
    (finalExecState agents s gid) hspec.1 hspec.2.1 hspec.2.2.1 hspec.2.2.2
  apply hclosed
  rw [Finset.mem_filter]
  exact ⟨List.mem_toFinset.mpr htmem, htX⟩

/-- Claim C7 witness: two independent tasks, `a` raising and `b` having
no capability — `b` still completes. -/
theorem claim_C7_failure_isolation_witness :
    "b" ∈ (finalExecState boomAgents pairStore "g1").completed := by
  have hdb : graphDeps pairStore "g1" "b" = [] := by decide
  have hda : graphDeps pairStore "g1" "a" = [] := by decide
  apply claim_C7_failure_isolation boomAgents pairStore "g1" 10
    { id := "g1", name := "pair", status := "pending" } (fun _ => 0) "a"
    (by decide) (by decide) (by decide) (by decide) (by decide)
    _ (core_eq_of_found boomAgents pairStore "g1" 10
      { id := "g1", name := "pair", status := "pending" } (by decide))
    "b" (by decide)
  · intro h
    rcases Relation.ReflTransGen.cases_head h with heq | ⟨c, hc, _⟩
    · exact absurd heq (by decide)
    · rw [hdb] at hc
      exact absurd hc (List.not_mem_nil c)
  · intro h
    rcases Relation.ReflTransGen.cases_head h with heq | ⟨c, hc, _⟩
    · exact absurd heq (by decide)
    · rw [hda] at hc
      exact absurd hc (List.not_mem_nil c)

theorem find?_map_pres (l : List TaskRow) (g : TaskRow → TaskRow)
    (hg : ∀ r2, (g r2).id = r2.id) (x : String) :
    (l.map g).find? (fun r => r.id == x) = (l.find? (fun r => r.id == x)).map g := by
  rw [List.find?_map]
  have hfun : ((fun r : TaskRow => r.id == x) ∘ g) = fun r : TaskRow => r.id == x := by
    funext r
    simp [Function.comp, hg r]
  rw [hfun]

theorem runCapability_congr (agents : AgentRegistry) (g : TaskRow → TaskRow)
    (hga : ∀ r, (g r).agentType = r.agentType)
    (hgi : ∀ r, (g r).inputData = r.inputData) (task : TaskRow) :
    runCapability agents (g task) = runCapability agents task := by
  unfold runCapability
  rw [hga, hgi]

theorem execute_task_sets_congr (agents : AgentRegistry) (tasks : List TaskRow)
    (g : TaskRow → TaskRow) (deps : String → List String)
    (hg : ∀ r, (g r).id = r.id) (hga : ∀ r, (g r).agentType = r.agentType)
    (hgi : ∀ r, (g r).inputData = r.inputData) :
    ∀ (st1 st2 : ExecState) (tid : String),
      st1.completed = st2.completed → st1.failed = st2.failed →
      (execute_task agents (tasks.map g) deps st1 tid).completed =
        (execute_task agents tasks deps st2 tid).completed ∧
      (execute_task agents (tasks.map g) deps st1 tid).failed =
        (execute_task agents tasks deps st2 tid).failed := by
  intro st1 st2 tid hc hf
  have hfm := find?_map_pres tasks g hg tid
  cases hfind : tasks.find? (fun t => t.id == tid) with
  | none =>
    rw [hfind] at hfm
    unfold execute_task
    simp only [hfm, hfind]
    exact ⟨hc, hf⟩
  | some task =>
    rw [hfind] at hfm
    unfold execute_task
    simp only [hfm, hfind, Option.map_some']
    rw [hc, hf, runCapability_congr agents g hga hgi task]
    by_cases hall : (deps tid).all (fun d => decide (d ∈ st2.completed)) = true
    · rw [if_pos hall, if_pos hall]
      cases runCapability agents task with
      | success o => cases o <;> exact ⟨rfl, rfl⟩
      | failure e => exact ⟨rfl, rfl⟩
    · rw [if_neg hall, if_neg hall]
      exact ⟨hc, hf⟩

theorem execRound_sets_congr (agents : AgentRegistry) (tasks : List TaskRow)
    (g : TaskRow → TaskRow) (deps : String → List String)
    (hg : ∀ r, (g r).id = r.id) (hga : ∀ r, (g r).agentType = r.agentType)
    (hgi : ∀ r, (g r).inputData = r.inputData) :
    ∀ (R : List String) (st1 st2 : ExecState),
      st1.completed = st2.completed → st1.failed = st2.failed →
      (execRound agents (tasks.map g) deps R st1).completed =
        (execRound agents tasks deps R st2).completed ∧
      (execRound agents (tasks.map g) deps R st1).failed =
        (execRound agents tasks deps R st2).failed := by
  intro R
  induction R with
  | nil =>
    intro st1 st2 hc hf
    exact ⟨hc, hf⟩
  | cons tid rest ih =>
    intro st1 st2 hc hf
    have hstep := execute_task_sets_congr agents tasks g deps hg hga hgi st1 st2 tid hc hf
    exact ih (execute_task agents (tasks.map g) deps st1 tid)
      (execute_task agents tasks deps st2 tid) hstep.1 hstep.2

theorem readyTasks_congr (tasks : List TaskRow) (g : TaskRow → TaskRow)
    (deps : String → List String) (hg : ∀ r, (g r).id = r.id)
    (st1 st2 : ExecState)
    (hc : st1.completed = st2.completed) (hf : st1.failed = st2.failed) :
    readyTasks (tasks.map g) deps st1 = readyTasks tasks deps st2 := by
  unfold readyTasks
  rw [hc, hf, List.map_map]
  have hfun : ((fun t : TaskRow => t.id) ∘ g) = fun t : TaskRow => t.id := by
    funext r
    simp [Function.comp, hg r]
  rw [hfun]

theorem execLoop_sets_congr (agents : AgentRegistry) (tasks : List TaskRow)
    (g : TaskRow → TaskRow) (deps : String → List String)
    (hg : ∀ r, (g r).id = r.id) (hga : ∀ r, (g r).agentType = r.agentType)
    (hgi : ∀ r, (g r).inputData = r.inputData) :
    ∀ (fuel : Nat) (st1 st2 : ExecState),
      st1.completed = st2.completed → st1.failed = st2.failed →
      (execLoop agents (tasks.map g) deps fuel st1).completed =
        (execLoop agents tasks deps fuel st2).completed ∧
      (execLoop agents (tasks.map g) deps fuel st1).failed =
        (execLoop agents tasks deps fuel st2).failed := by
  intro fuel
  induction fuel with
  | zero =>
    intro st1 st2 hc hf
    exact ⟨hc, hf⟩
  | succ fuel ih =>
    intro st1 st2 hc hf
    rw [execLoop_succ, execLoop_succ, List.length_map,
      readyTasks_congr tasks g deps hg st1 st2 hc hf, hc, hf]
    by_cases hcond : st2.completed.card + st2.failed.card < tasks.length
    · rw [if_pos hcond, if_pos hcond]
      by_cases hready : (readyTasks tasks deps st2).isEmpty = true
      · rw [if_pos hready, if_pos hready]
        exact ⟨hc, hf⟩
      · rw [if_neg hready, if_neg hready]
        have hstep := execRound_sets_congr agents tasks g deps hg hga hgi
          (readyTasks tasks deps st2) st1 st2 hc hf
        exact ih (execRound agents (tasks.map g) deps (readyTasks tasks deps st2) st1)
          (execRound agents tasks deps (readyTasks tasks deps st2) st2) hstep.1 hstep.2
    · rw [if_neg hcond, if_neg hcond]
      exact ⟨hc, hf⟩

theorem graphTaskRows_overwrite (f1 : String → String)
    (f2 f3 : String → Option JsonData) (s : Store) (gid : String) :
    graphTaskRows (overwriteTaskRows f1 f2 f3 s) gid =
      (graphTaskRows s gid).map (fun r =>
        { r with status := f1 r.id, outputData := f2 r.id, errorMessage := f3 r.id }) := by
  unfold graphTaskRows overwriteTaskRows
  rw [List.filter_map]
  rfl

theorem graphDeps_overwrite (f1 : String → String)
    (f2 f3 : String → Option JsonData) (s : Store) (gid : String) :
    graphDeps (overwriteTaskRows f1 f2 f3 s) gid = graphDeps s gid := by
  funext tid
  show depsOf ((overwriteTaskRows f1 f2 f3 s).taskDependencies.filter
      (fun d => (graphTaskRows (overwriteTaskRows f1 f2 f3 s) gid).any
        (fun t => t.id == d.taskId))) tid =
    depsOf (s.taskDependencies.filter
      (fun d => (graphTaskRows s gid).any (fun t => t.id == d.taskId))) tid
  have hdeps : (overwriteTaskRows f1 f2 f3 s).taskDependencies = s.taskDependencies := rfl
  rw [hdeps, graphTaskRows_overwrite]
  have hfil : s.taskDependencies.filter
      (fun d => ((graphTaskRows s gid).map (fun r =>
        { r with status := f1 r.id, outputData := f2 r.id, errorMessage := f3 r.id })).any
        (fun t => t.id == d.taskId)) =
      s.taskDependencies.filter
        (fun d => (graphTaskRows s gid).any (fun t => t.id == d.taskId)) := by
    apply List.filter_congr
    intro d _
    rw [List.any_map]
    rfl
  rw [hfil]

/-- Claim C10: the bookkeeping sets start empty and the loop never reads
a task's persisted `status` (nor `output_data` / `error_message`) — so
overwriting those fields arbitrarily, which covers in particular the
footprint of a previous `execute_task_graph` call on the same graph,
changes neither the returned summary nor which tasks the call completes
and fails: a repeat call re-dispatches every task and its counts reflect
only this call's transitions. -/
theorem claim_C10_ignores_persisted_status (agents : AgentRegistry) (s : Store)
    (gid : String) (mp : Nat) (f1 : String → String)
    (f2 f3 : String → Option JsonData) :
    exceptView (fun r => (r.summary, r.completedSet, r.failedSet))
        (execute_task_graph_core agents (overwriteTaskRows f1 f2 f3 s) gid mp) =
      exceptView (fun r => (r.summary, r.completedSet, r.failedSet))
        (execute_task_graph_core agents s gid mp) := by
  cases hfind : s.taskGraphs.find? (fun g2 => g2.id == gid) with
  | none =>
    have hfind2 : (overwriteTaskRows f1 f2 f3 s).taskGraphs.find?
        (fun g2 => g2.id == gid) = none := hfind
    unfold execute_task_graph_core
    rw [hfind]
    rw [hfind2]
  | some g =>
    have hfind2 : (overwriteTaskRows f1 f2 f3 s).taskGraphs.find?
        (fun g2 => g2.id == gid) = some g := hfind
    rw [core_eq_of_found agents (overwriteTaskRows f1 f2 f3 s) gid mp g hfind2,
      core_eq_of_found agents s gid mp g hfind]
    have hsets : (finalExecState agents (overwriteTaskRows f1 f2 f3 s) gid).completed =
        (finalExecState agents s gid).completed ∧
        (finalExecState agents (overwriteTaskRows f1 f2 f3 s) gid).failed =
        (finalExecState agents s gid).failed := by
      unfold finalExecState
      rw [graphTaskRows_overwrite, graphDeps_overwrite, List.length_map]
      exact execLoop_sets_congr agents (graphTaskRows s gid)
        (fun r => { r with status := f1 r.id, outputData := f2 r.id, errorMessage := f3 r.id })
        (graphDeps s gid) (fun r => rfl) (fun r => rfl) (fun r => rfl)
        (graphTaskRows s gid).length
        (initExecState (overwriteTaskRows f1 f2 f3 s) gid) (initExecState s gid) rfl rfl
    unfold exceptView
    rw [hsets.1, hsets.2]
    have htot : (graphTaskRows (overwriteTaskRows f1 f2 f3 s) gid).length =
        (graphTaskRows s gid).length := by
      rw [graphTaskRows_overwrite, List.length_map]
    rw [htot]

theorem findRow_update (s : Store) (tid : String) (f : TaskRow → TaskRow)
    (hf : ∀ r, (f r).id = r.id) (x : String) :
    findRow (updateTaskRow s tid f) x =
      if x = tid then (findRow s tid).map f else findRow s x := by
  show (s.tasks.map (fun r => if r.id == tid then f r else r)).find? (fun r => r.id == x) = _
  rw [find?_map_pres s.tasks _ (by
    intro r2
    by_cases h : r2.id == tid
    · simp [h, hf r2]
    · simp [h]) x]
  unfold findRow
  cases hfind : s.tasks.find? (fun r => r.id == x) with
  | none =>
    by_cases hx : x = tid
    · subst hx
      simp [hfind]
    · simp [hfind, hx]
  | some r0 =>
    have hid := List.find?_some hfind
    rw [beq_iff_eq] at hid
    by_cases hx : x = tid
    · subst hx
      simp [hfind, hid]
    · have hne : (r0.id == tid) = false := by
        rw [beq_eq_false_iff_ne, hid]
        exact hx
      simp [hfind, hx, hne]
      intro h
      rw [beq_eq_false_iff_ne] at hne
      exact absurd h hne

theorem mem_ids_of_find (tasks : List TaskRow) (tid : String) (task : TaskRow)
    (hfind : tasks.find? (fun t => t.id == tid) = some task) :
    tid ∈ tasks.map (fun t => t.id) := by
  have hmem := List.mem_of_find?_eq_some hfind
  have hid := List.find?_some hfind
  rw [beq_iff_eq] at hid
  exact List.mem_map.mpr ⟨task, hmem, hid⟩

theorem execute_task_failed_subset (agents : AgentRegistry) (tasks : List TaskRow)
    (deps : String → List String) (st : ExecState) (tid : String) :
    (execute_task agents tasks deps st tid).failed ⊆ insert tid st.failed := by
  unfold execute_task
  cases hfind : tasks.find? (fun t => t.id == tid) with
  | none => exact Finset.subset_insert tid st.failed
  | some task =>
    by_cases hall : (deps tid).all (fun d => decide (d ∈ st.completed)) = true
    · simp only [hall, if_true]
      cases runCapability agents task with
      | success o =>
        cases o <;> exact Finset.subset_insert tid st.failed
      | failure e =>
        intro u hu
        rcases Finset.mem_insert.mp hu with h | h
        · exact h ▸ Finset.mem_insert_self tid st.failed
        · exact Finset.mem_insert_of_mem h
    · simp only [hall, if_false]
      exact Finset.subset_insert tid st.failed

theorem findRow_double_update (X : Store) (tid : String) (f g : TaskRow → TaskRow)
    (hf : ∀ r, (f r).id = r.id) (hg : ∀ r, (g r).id = r.id) (x : String) :
    findRow (updateTaskRow (updateTaskRow X tid f) tid g) x =
      if x = tid then (findRow X tid).map (fun r => g (f r)) else findRow X x := by
  rw [findRow_update (updateTaskRow X tid f) tid g hg x]
  by_cases hx : x = tid
  · rw [if_pos hx, if_pos hx, findRow_update X tid f hf tid, if_pos rfl]
    cases findRow X tid <;> simp
  · rw [if_neg hx, if_neg hx, findRow_update X tid f hf x, if_neg hx]

theorem execute_task_store_spec (agents : AgentRegistry) (tasks : List TaskRow)
    (deps : String → List String) (st : ExecState) (tid : String)
    (hids : ∀ x ∈ tasks.map (fun t => t.id), (findRow st.store x).isSome = true)
    (hfailedInv : ∀ u ∈ st.failed, ∃ row, findRow st.store u = some row ∧
      row.status = "failed" ∧ row.errorMessage.isSome = true)
    (htid : tid ∉ st.failed) :
    (∀ x ∈ tasks.map (fun t => t.id),
      (findRow (execute_task agents tasks deps st tid).store x).isSome = true) ∧
    (∀ u ∈ (execute_task agents tasks deps st tid).failed,
      ∃ row, findRow (execute_task agents tasks deps st tid).store u = some row ∧
        row.status = "failed" ∧ row.errorMessage.isSome = true) := by
  unfold execute_task
  cases hfind : tasks.find? (fun t => t.id == tid) with
  | none => exact ⟨hids, hfailedInv⟩
  | some task =>
    have htidmem : tid ∈ tasks.map (fun t => t.id) := mem_ids_of_find tasks tid task hfind
    by_cases hall : (deps tid).all (fun d => decide (d ∈ st.completed)) = true
    · simp only [hall, if_true]
      cases runCapability agents task with
      | success o =>
        cases o with
        | some out =>
          dsimp only
          constructor
          · intro x hx
            rw [findRow_double_update st.store tid
              (fun r => { r with status := "running" })
              (fun r => { r with status := "completed", outputData := some out })
              (fun r => rfl) (fun r => rfl) x]
            by_cases hx2 : x = tid
            · rw [if_pos hx2, Option.isSome_map']
              exact hids tid htidmem
            · rw [if_neg hx2]
              exact hids x hx
          · intro u hu
            rw [findRow_double_update st.store tid
              (fun r => { r with status := "running" })
              (fun r => { r with status := "completed", outputData := some out })
              (fun r => rfl) (fun r => rfl) u]
            have hu2 : u ∈ st.failed := hu
            have hune : u ≠ tid := fun h => htid (h ▸ hu2)
            rw [if_neg hune]
            exact hfailedInv u hu2
        | none =>
          dsimp only
          constructor
          · intro x hx
            rw [findRow_double_update st.store tid
              (fun r => { r with status := "running" })
              (fun r => { r with status := "completed" })
              (fun r => rfl) (fun r => rfl) x]
            by_cases hx2 : x = tid
            · rw [if_pos hx2, Option.isSome_map']
              exact hids tid htidmem
            · rw [if_neg hx2]
              exact hids x hx
          · intro u hu
            rw [findRow_double_update st.store tid
              (fun r => { r with status := "running" })
              (fun r => { r with status := "completed" })
              (fun r => rfl) (fun r => rfl) u]
            have hu2 : u ∈ st.failed := hu
            have hune : u ≠ tid := fun h => htid (h ▸ hu2)
            rw [if_neg hune]
            exact hfailedInv u hu2
      | failure e =>
        dsimp only
        constructor
        · intro x hx
          rw [findRow_double_update st.store tid
            (fun r => { r with status := "running" })
            (fun r => { r with status := "failed", errorMessage := some e })
            (fun r => rfl) (fun r => rfl) x]
          by_cases hx2 : x = tid
          · rw [if_pos hx2, Option.isSome_map']
            exact hids tid htidmem
          · rw [if_neg hx2]
            exact hids x hx
        · intro u hu
          rw [findRow_double_update st.store tid
            (fun r => { r with status := "running" })
            (fun r => { r with status := "failed", errorMessage := some e })
            (fun r => rfl) (fun r => rfl) u]
          rcases Finset.mem_insert.mp hu with rfl | hu2
          · rw [if_pos rfl]
            obtain ⟨row0, hrow0⟩ := Option.isSome_iff_exists.mp (hids u htidmem)
            rw [hrow0]
            exact ⟨_, rfl, rfl, rfl⟩
          · have hune : u ≠ tid := fun h => htid (h ▸ hu2)
            rw [if_neg hune]
            exact hfailedInv u hu2
    · simp only [hall, if_false]
      exact ⟨hids, hfailedInv⟩

theorem execRound_store_spec (agents : AgentRegistry) (tasks : List TaskRow)
    (deps : String → List String) :
    ∀ (R : List String) (st : ExecState), R.Nodup →
      (∀ tid ∈ R, tid ∉ st.failed) →
      (∀ x ∈ tasks.map (fun t => t.id), (findRow st.store x).isSome = true) →
      (∀ u ∈ st.failed, ∃ row, findRow st.store u = some row ∧
        row.status = "failed" ∧ row.errorMessage.isSome = true) →
      (∀ x ∈ tasks.map (fun t => t.id),
        (findRow (execRound agents tasks deps R st).store x).isSome = true) ∧
      (∀ u ∈ (execRound agents tasks deps R st).failed,
        ∃ row, findRow (execRound agents tasks deps R st).store u = some row ∧
          row.status = "failed" ∧ row.errorMessage.isSome = true) := by
  intro R
  induction R with
  | nil =>
    intro st _ _ h1 h2
    exact ⟨h1, h2⟩
  | cons tid rest ih =>
    intro st hnodup hRf h1 h2
    have hstep := execute_task_store_spec agents tasks deps st tid h1 h2
      (hRf tid (List.mem_cons_self tid rest))
    have hfsub := execute_task_failed_subset agents tasks deps st tid
    apply ih (execute_task agents tasks deps st tid) (List.Nodup.of_cons hnodup)
    · intro u hu hcon
      rcases Finset.mem_insert.mp (hfsub hcon) with h | h
      · rw [h] at hu
        exact (List.nodup_cons.mp hnodup).1 hu
      · exact hRf u (List.mem_cons_of_mem tid hu) h
    · exact hstep.1
    · exact hstep.2

theorem execLoop_store_spec (agents : AgentRegistry) (tasks : List TaskRow)
    (deps : String → List String)
    (hnodup : (tasks.map (fun t => t.id)).Nodup) :
    ∀ (fuel : Nat) (st : ExecState),
      (∀ x ∈ tasks.map (fun t => t.id), (findRow st.store x).isSome = true) →
      (∀ u ∈ st.failed, ∃ row, findRow st.store u = some row ∧
        row.status = "failed" ∧ row.errorMessage.isSome = true) →
      (∀ x ∈ tasks.map (fun t => t.id),
        (findRow (execLoop agents tasks deps fuel st).store x).isSome = true) ∧
      (∀ u ∈ (execLoop agents tasks deps fuel st).failed,
        ∃ row, findRow (execLoop agents tasks deps fuel st).store u = some row ∧
          row.status = "failed" ∧ row.errorMessage.isSome = true) := by
  intro fuel
  induction fuel with
  | zero =>
    intro st h1 h2
    exact ⟨h1, h2⟩
  | succ fuel ih =>
    intro st h1 h2
    rw [execLoop_succ]
    by_cases hcond : st.completed.card + st.failed.card < tasks.length
    · rw [if_pos hcond]
      by_cases hready : (readyTasks tasks deps st).isEmpty = true
      · rw [if_pos hready]
        exact ⟨h1, h2⟩
      · rw [if_neg hready]
        have hRnodup : (readyTasks tasks deps st).Nodup :=
          List.Nodup.filter _ hnodup
        have hRf : ∀ tid ∈ readyTasks tasks deps st, tid ∉ st.failed :=
          fun tid ht => ((readyTasks_mem tasks deps st tid).mp ht).2.2.1
        have hround := execRound_store_spec agents tasks deps
          (readyTasks tasks deps st) st hRnodup hRf h1 h2
        exact ih (execRound agents tasks deps (readyTasks tasks deps st) st)
          hround.1 hround.2
    · rw [if_neg hcond]
      exact ⟨h1, h2⟩

/-- Claim C8: `execute_task_graph` raises to its caller exactly when the
graph id does not resolve (the store itself is always reachable in the
model); every capability exception is caught and recorded on its task —
each id in the final `failed` set has a row whose status is `failed` and
whose `error_message` is set — and the call still returns a summary. -/
theorem claim_C8_error_propagation (agents : AgentRegistry) (s : Store)
    (gid : String) (mp : Nat)
    (hpk : (s.tasks.map (fun t => t.id)).Nodup) :
    ((exceptOk (execute_task_graph agents s gid mp) = true) ↔
      ((s.taskGraphs.find? (fun g2 => g2.id == gid)).isSome = true)) ∧
    (∀ r, execute_task_graph_core agents s gid mp = .ok r →
      ∀ tid ∈ r.failedSet, (findRow r.finalStore tid).map
        (fun row => (row.status, row.errorMessage.isSome)) = some ("failed", true)) := by
  have hgnodup : ((graphTaskRows s gid).map (fun t => t.id)).Nodup :=
    List.Nodup.sublist (List.Sublist.map _ (List.filter_sublist s.tasks)) hpk
  constructor
  · cases hfind : s.taskGraphs.find? (fun g2 => g2.id == gid) with
    | none =>
      unfold execute_task_graph execute_task_graph_core
      rw [hfind]
      exact Iff.rfl
    | some g =>
      unfold execute_task_graph
      rw [core_eq_of_found agents s gid mp g hfind]
      exact Iff.rfl
  · intro r hr tid htid
    cases hfind : s.taskGraphs.find? (fun g2 => g2.id == gid) with
    | none =>
      unfold execute_task_graph_core at hr
      rw [hfind] at hr
      exact Except.noConfusion hr
    | some g =>
      rw [core_eq_of_found agents s gid mp g hfind] at hr
      injection hr with h
      subst h
      have hinit1 : ∀ x ∈ (graphTaskRows s gid).map (fun t => t.id),
          (findRow (initExecState s gid).store x).isSome = true := by
        intro x hx
        obtain ⟨row, hrow, hid⟩ := List.mem_map.mp hx
        have hrow2 : row ∈ s.tasks := List.mem_of_mem_filter hrow
        have hsome : (s.tasks.find? (fun r2 => r2.id == x)).isSome := by
          rw [List.find?_isSome]
          exact ⟨row, hrow2, by simp [hid]⟩
        exact hsome
      have hinit2 : ∀ u ∈ (initExecState s gid).failed,
          ∃ row, findRow (initExecState s gid).store u = some row ∧
            row.status = "failed" ∧ row.errorMessage.isSome = true := by
        intro u hu
        exact absurd hu (Finset.not_mem_empty u)
      have hF : execLoop agents (graphTaskRows s gid) (graphDeps s gid)
          (graphTaskRows s gid).length (initExecState s gid) =
          finalExecState agents s gid := rfl
      have hspec := execLoop_store_spec agents (graphTaskRows s gid) (graphDeps s gid)
        hgnodup (graphTaskRows s gid).length (initExecState s gid) hinit1 hinit2
      rw [hF] at hspec
      obtain ⟨row, hfound2, hst, herr⟩ := hspec.2 tid htid
      have hsame : findRow (updateGraphRow (finalExecState agents s gid).store gid
          (fun g2 => { g2 with status := (if (finalExecState agents s gid).failed.card = 0
            then "completed" else "failed") })) tid =
          findRow (finalExecState agents s gid).store tid := rfl
      rw [hsame, hfound2]
      rw [Option.map_some']
      rw [hst, herr]

/-- Claim C8 witness: on the concrete two-task store whose `boom`
capability raises, the call succeeds (graph found) and the failed task
`a` ends with status `failed` and an error message in the final store. -/
theorem claim_C8_error_propagation_witness :
    ((exceptOk (execute_task_graph boomAgents pairStore "g1" 10) = true) ↔
      ((pairStore.taskGraphs.find? (fun g2 => g2.id == "g1")).isSome = true)) ∧
    ((findRow (updateGraphRow (finalExecState boomAgents pairStore "g1").store "g1"
        (fun g2 => { g2 with status := (if (finalExecState boomAgents pairStore "g1").failed.card = 0
          then "completed" else "failed") })) "a").map
      (fun row => (row.status, row.errorMessage.isSome)) = some ("failed", true)) := by
  have h := claim_C8_error_propagation boomAgents pairStore "g1" 10 (by decide)
  exact ⟨h.1, h.2 _ (core_eq_of_found boomAgents pairStore "g1" 10
    { id := "g1", name := "pair", status := "pending" } (by decide)) "a" (by decide)⟩

theorem card_filter_phase_update (F : Finset String) (pred : TaskPhase → Bool)
    (st : SchedState) (t : String) (p : TaskPhase) (ht : t ∈ F) :
    (F.filter (fun x => pred ((setPhase st t p).phase x) = true)).card +
      (if pred (st.phase t) = true then 1 else 0) =
    (F.filter (fun x => pred (st.phase x) = true)).card +
      (if pred p = true then 1 else 0) := by
  have hF : F = insert t (F.erase t) := (Finset.insert_erase ht).symm
  have hnot : t ∉ F.erase t := Finset.not_mem_erase t F
  have herase : (F.erase t).filter (fun x => pred ((setPhase st t p).phase x) = true) =
      (F.erase t).filter (fun x => pred (st.phase x) = true) := by
    apply Finset.filter_congr
    intro x hx
    have hxt : x ≠ t := Finset.ne_of_mem_erase hx
    simp [setPhase, hxt]
  have hnm : t ∉ (F.erase t).filter (fun x => pred (st.phase x) = true) := by
    intro hc
    exact hnot (Finset.filter_subset _ _ hc)
  have hpt : (setPhase st t p).phase t = p := by simp [setPhase]
  rw [hF, Finset.filter_insert, Finset.filter_insert, hpt, herase]
  by_cases h1 : pred p = true <;> by_cases h2 : pred (st.phase t) = true
  · rw [if_pos h1, if_pos h2, if_pos h1, if_pos h2]
  · rw [if_pos h1, if_neg h2, if_neg h2, if_pos h1,
      Finset.card_insert_of_not_mem hnm]
  · rw [if_neg h1, if_pos h2, if_pos h2, if_neg h1,
      Finset.card_insert_of_not_mem hnm]
  · rw [if_neg h1, if_neg h2, if_neg h2, if_neg h1]

theorem schedInv_start (c : SchedCtx) : SchedInv c schedStart := by
  refine ⟨?_, ?_, ?_, ?_⟩
  · have hempty : semCount c schedStart = 0 := by
      unfold semCount
      rw [Finset.card_eq_zero, Finset.filter_eq_empty_iff]
      intro x _
      simp [schedStart, holdsSem]
    rw [hempty]
    exact Nat.zero_le _
  · intro t h
    exact absurd rfl h
  · intro t h
    exact TaskPhase.noConfusion h
  · simp [schedStart]

theorem schedStep_preserves (c : SchedCtx) (st st2 : SchedState)
    (hinv : SchedInv c st) (hstep : SchedStep c st st2) : SchedInv c st2 := by
  obtain ⟨hsem, hphase, hchecked, hdisj⟩ := hinv
  cases hstep with
  | dispatch t hmem hph hc hf hd =>
    have hcnt := card_filter_phase_update c.taskIds.toFinset holdsSem st t .waitingSem
      (List.mem_toFinset.mpr hmem)
    rw [hph] at hcnt
    refine ⟨?_, ?_, ?_, hdisj⟩
    · show semCount c (setPhase st t .waitingSem) ≤ c.maxParallel
      have hcnt2 : semCount c (setPhase st t TaskPhase.waitingSem) + 0 =
        semCount c st + 0 := hcnt
      omega
    · intro u hu
      by_cases hut : u = t
      · subst hut
        exact ⟨hmem, hc, hf⟩
      · have heq : (setPhase st t .waitingSem).phase u = st.phase u := by
          simp [setPhase, hut]
        rw [heq] at hu
        exact hphase u hu
    · intro u hu d hd2
      by_cases hut : u = t
      · subst hut
        rw [show (setPhase st u .waitingSem).phase u = .waitingSem by simp [setPhase]] at hu
        exact absurd hu (by simp)
      · have heq : (setPhase st t .waitingSem).phase u = st.phase u := by
          simp [setPhase, hut]
        rw [heq] at hu
        exact hchecked u hu d hd2
  | acquire t hph hsem2 =>
    have hmem : t ∈ c.taskIds := (hphase t (by rw [hph]; simp)).1
    have hcnt := card_filter_phase_update c.taskIds.toFinset holdsSem st t .holdingSem
      (List.mem_toFinset.mpr hmem)
    rw [hph] at hcnt
    refine ⟨?_, ?_, ?_, hdisj⟩
    · show semCount c (setPhase st t .holdingSem) ≤ c.maxParallel
      have hcnt2 : semCount c (setPhase st t TaskPhase.holdingSem) + 0 =
        semCount c st + 1 := hcnt
      omega
    · intro u hu
      by_cases hut : u = t
      · subst hut
        exact hphase u (by rw [hph]; simp)
      · have heq : (setPhase st t .holdingSem).phase u = st.phase u := by
          simp [setPhase, hut]
        rw [heq] at hu
        exact hphase u hu
    · intro u hu d hd2
      by_cases hut : u = t
      · subst hut
        rw [show (setPhase st u .holdingSem).phase u = .holdingSem by simp [setPhase]] at hu
        exact absurd hu (by simp)
      · have heq : (setPhase st t .holdingSem).phase u = st.phase u := by
          simp [setPhase, hut]
        rw [heq] at hu
        exact hchecked u hu d hd2
  | checkOk t hph hd =>
    have hmem : t ∈ c.taskIds := (hphase t (by rw [hph]; simp)).1
    have hcnt := card_filter_phase_update c.taskIds.toFinset holdsSem st t .checkedDeps
      (List.mem_toFinset.mpr hmem)
    rw [hph] at hcnt
    refine ⟨?_, ?_, ?_, hdisj⟩
    · show semCount c (setPhase st t .checkedDeps) ≤ c.maxParallel
      have hcnt2 : semCount c (setPhase st t TaskPhase.checkedDeps) + 1 =
        semCount c st + 1 := hcnt
      omega
    · intro u hu
      by_cases hut : u = t
      · subst hut
        exact hphase u (by rw [hph]; simp)
      · have heq : (setPhase st t .checkedDeps).phase u = st.phase u := by
          simp [setPhase, hut]
        rw [heq] at hu
        exact hphase u hu
    · intro u hu d hd2
      by_cases hut : u = t
      · subst hut
        exact hd d hd2
      · have heq : (setPhase st t .checkedDeps).phase u = st.phase u := by
          simp [setPhase, hut]
        rw [heq] at hu
        exact hchecked u hu d hd2
  | checkFail t hph hd =>
    have hmem : t ∈ c.taskIds := (hphase t (by rw [hph]; simp)).1
    have hcnt := card_filter_phase_update c.taskIds.toFinset holdsSem st t .idle
      (List.mem_toFinset.mpr hmem)
    rw [hph] at hcnt
    refine ⟨?_, ?_, ?_, hdisj⟩
    · show semCount c (setPhase st t .idle) ≤ c.maxParallel
      have hcnt2 : semCount c (setPhase st t TaskPhase.idle) + 1 =
        semCount c st + 0 := hcnt
      omega
    · intro u hu
      by_cases hut : u = t
      · subst hut
        rw [show (setPhase st u .idle).phase u = .idle by simp [setPhase]] at hu
        exact absurd rfl hu
      · have heq : (setPhase st t .idle).phase u = st.phase u := by
          simp [setPhase, hut]
        rw [heq] at hu
        exact hphase u hu
    · intro u hu d hd2
      by_cases hut : u = t
      · subst hut
        rw [show (setPhase st u .idle).phase u = .idle by simp [setPhase]] at hu
        exact absurd hu (by simp)
      · have heq : (setPhase st t .idle).phase u = st.phase u := by
          simp [setPhase, hut]
        rw [heq] at hu
        exact hchecked u hu d hd2
  | markRunning t hph =>
    have hmem : t ∈ c.taskIds := (hphase t (by rw [hph]; simp)).1
    have hcnt := card_filter_phase_update c.taskIds.toFinset holdsSem st t .runningTask
      (List.mem_toFinset.mpr hmem)
    rw [hph] at hcnt
    refine ⟨?_, ?_, ?_, hdisj⟩
    · show semCount c (setPhase st t .runningTask) ≤ c.maxParallel
      have hcnt2 : semCount c (setPhase st t TaskPhase.runningTask) + 1 =
        semCount c st + 1 := hcnt
      omega
    · intro u hu
      by_cases hut : u = t
      · subst hut
        exact hphase u (by rw [hph]; simp)
      · have heq : (setPhase st t .runningTask).phase u = st.phase u := by
          simp [setPhase, hut]
        rw [heq] at hu
        exact hphase u hu
    · intro u hu d hd2
      by_cases hut : u = t
      · subst hut
        rw [show (setPhase st u .runningTask).phase u = .runningTask by simp [setPhase]] at hu
        exact absurd hu (by simp)
      · have heq : (setPhase st t .runningTask).phase u = st.phase u := by
          simp [setPhase, hut]
        rw [heq] at hu
        exact hchecked u hu d hd2
  | finishOk t hph hs =>
    have hmem : t ∈ c.taskIds := (hphase t (by rw [hph]; simp)).1
    have htf : t ∉ st.failed := (hphase t (by rw [hph]; simp)).2.2
    have hcnt := card_filter_phase_update c.taskIds.toFinset holdsSem st t .idle
      (List.mem_toFinset.mpr hmem)
    rw [hph] at hcnt
    refine ⟨?_, ?_, ?_, ?_⟩
    · show semCount c (setPhase st t .idle) ≤ c.maxParallel
      have hcnt2 : semCount c (setPhase st t TaskPhase.idle) + 1 =
        semCount c st + 0 := hcnt
      omega
    · intro u hu
      by_cases hut : u = t
      · subst hut
        rw [show ({ setPhase st u TaskPhase.idle with
            completed := insert u st.completed } : SchedState).phase u = .idle by
          simp [setPhase]] at hu
        exact absurd rfl hu
      · have heq : ({ setPhase st t TaskPhase.idle with
            completed := insert t st.completed } : SchedState).phase u = st.phase u := by
          simp [setPhase, hut]
        rw [heq] at hu
        refine ⟨(hphase u hu).1, ?_, (hphase u hu).2.2⟩
        intro hc
        rcases Finset.mem_insert.mp hc with h | h
        · exact hut h
        · exact (hphase u hu).2.1 h
    · intro u hu d hd2
      by_cases hut : u = t
      · subst hut
        rw [show ({ setPhase st u TaskPhase.idle with
            completed := insert u st.completed } : SchedState).phase u = .idle by
          simp [setPhase]] at hu
        exact absurd hu (by simp)
      · have heq : ({ setPhase st t TaskPhase.idle with
            completed := insert t st.completed } : SchedState).phase u = st.phase u := by
          simp [setPhase, hut]
        rw [heq] at hu
        exact Finset.mem_insert_of_mem (hchecked u hu d hd2)
    · show Disjoint (insert t st.completed) st.failed
      rw [Finset.disjoint_insert_left]
      exact ⟨htf, hdisj⟩
  | finishFail t hph hs =>
    have hmem : t ∈ c.taskIds := (hphase t (by rw [hph]; simp)).1
    have htc : t ∉ st.completed := (hphase t (by rw [hph]; simp)).2.1
    have hcnt := card_filter_phase_update c.taskIds.toFinset holdsSem st t .idle
      (List.mem_toFinset.mpr hmem)
    rw [hph] at hcnt
    refine ⟨?_, ?_, ?_, ?_⟩
    · show semCount c (setPhase st t .idle) ≤ c.maxParallel
      have hcnt2 : semCount c (setPhase st t TaskPhase.idle) + 1 =
        semCount c st + 0 := hcnt
      omega
    · intro u hu
      by_cases hut : u = t
      · subst hut
        rw [show ({ setPhase st u TaskPhase.idle with
            failed := insert u st.failed } : SchedState).phase u = .idle by
          simp [setPhase]] at hu
        exact absurd rfl hu
      · have heq : ({ setPhase st t TaskPhase.idle with
            failed := insert t st.failed } : SchedState).phase u = st.phase u := by
          simp [setPhase, hut]
        rw [heq] at hu
        refine ⟨(hphase u hu).1, (hphase u hu).2.1, ?_⟩
        intro hc
        rcases Finset.mem_insert.mp hc with h | h
        · exact hut h
        · exact (hphase u hu).2.2 h
    · intro u hu d hd2
      by_cases hut : u = t
      · subst hut
        rw [show ({ setPhase st u TaskPhase.idle with
            failed := insert u st.failed } : SchedState).phase u = .idle by
          simp [setPhase]] at hu
        exact absurd hu (by simp)
      · have heq : ({ setPhase st t TaskPhase.idle with
            failed := insert t st.failed } : SchedState).phase u = st.phase u := by
          simp [setPhase, hut]
        rw [heq] at hu
        exact hchecked u hu d hd2
    · show Disjoint st.completed (insert t st.failed)
      rw [Finset.disjoint_insert_right]
      exact ⟨htc, hdisj⟩

theorem schedInv_reachable (c : SchedCtx) (st : SchedState)
    (h : SchedReachable c st) : SchedInv c st := by
  induction h with
  | refl => exact schedInv_start c
  | tail hsteps hstep ih => exact schedStep_preserves c _ _ ih hstep

/-- Claim C5: in every state an `execute_task_graph` call can pass
through, the number of tasks with status `running` is at most
`max_parallel` — the counting semaphore is held from before `running.add`
until after `running.discard`, so the running set never exceeds the
semaphore's size. -/
theorem claim_C5_concurrency_bound (c : SchedCtx) (st : SchedState)
    (h : SchedReachable c st) : runningCount c st ≤ c.maxParallel := by
  have hinv := schedInv_reachable c st h
  have hle : runningCount c st ≤ semCount c st := by
    apply Finset.card_le_card
    intro x hx
    rw [Finset.mem_filter] at hx
    rw [Finset.mem_filter]
    refine ⟨hx.1, ?_⟩
    rw [hx.2]
    rfl
  exact le_trans hle hinv.1

/-- Claim C5 witness: the initial state of a concrete one-task context. -/
theorem claim_C5_concurrency_bound_witness :
    runningCount schedCtxW schedStart ≤ schedCtxW.maxParallel :=
  claim_C5_concurrency_bound schedCtxW schedStart Relation.ReflTransGen.refl

/-- Claim C4: a task only ever transitions to `running` from a state in
which every one of its dependencies is in `completed` — and since
`completed` and `failed` stay disjoint, a dependency that failed can
never satisfy the check, so the task is never dispatched to `running`. -/
theorem claim_C4_dependency_ordering (c : SchedCtx) (st st2 : SchedState)
    (t : String) (hre : SchedReachable c st) (hstep : SchedStep c st st2)
    (hbefore : st.phase t ≠ .runningTask) (hafter : st2.phase t = .runningTask) :
    ∀ d ∈ c.deps t, d ∈ st.completed ∧ d ∉ st.failed := by
  have hinv := schedInv_reachable c st hre
  cases hstep with
  | dispatch t2 hmem hph hc hf hd =>
    exfalso
    by_cases ht : t = t2
    · subst ht
      rw [show (setPhase st t .waitingSem).phase t = .waitingSem by simp [setPhase]] at hafter
      exact TaskPhase.noConfusion hafter
    · rw [show (setPhase st t2 .waitingSem).phase t = st.phase t by simp [setPhase, ht]] at hafter
      exact hbefore hafter
  | acquire t2 hph hsem2 =>
    exfalso
    by_cases ht : t = t2
    · subst ht
      rw [show (setPhase st t .holdingSem).phase t = .holdingSem by simp [setPhase]] at hafter
      exact TaskPhase.noConfusion hafter
    · rw [show (setPhase st t2 .holdingSem).phase t = st.phase t by simp [setPhase, ht]] at hafter
      exact hbefore hafter
  | checkOk t2 hph hd =>
    exfalso
    by_cases ht : t = t2
    · subst ht
      rw [show (setPhase st t .checkedDeps).phase t = .checkedDeps by simp [setPhase]] at hafter
      exact TaskPhase.noConfusion hafter
    · rw [show (setPhase st t2 .checkedDeps).phase t = st.phase t by simp [setPhase, ht]] at hafter
      exact hbefore hafter
  | checkFail t2 hph hd =>
    exfalso
    by_cases ht : t = t2
    · subst ht
      rw [show (setPhase st t .idle).phase t = .idle by simp [setPhase]] at hafter
      exact TaskPhase.noConfusion hafter
    · rw [show (setPhase st t2 .idle).phase t = st.phase t by simp [setPhase, ht]] at hafter
      exact hbefore hafter
  | markRunning t2 hph =>
    by_cases ht : t = t2
    · subst ht
      intro d hd
      have hcomp := hinv.2.2.1 t hph d hd
      exact ⟨hcomp, fun hdf => Finset.disjoint_left.mp hinv.2.2.2 hcomp hdf⟩
    · exfalso
      rw [show (setPhase st t2 .runningTask).phase t = st.phase t by simp [setPhase, ht]] at hafter
      exact hbefore hafter
  | finishOk t2 hph hs =>
    exfalso
    by_cases ht : t = t2
    · subst ht
      rw [show ({ setPhase st t TaskPhase.idle with
          completed := insert t st.completed } : SchedState).phase t = .idle by
        simp [setPhase]] at hafter
      exact TaskPhase.noConfusion hafter
    · rw [show ({ setPhase st t2 TaskPhase.idle with
          completed := insert t2 st.completed } : SchedState).phase t = st.phase t by
        simp [setPhase, ht]] at hafter
      exact hbefore hafter
  | finishFail t2 hph hs =>
    exfalso
    by_cases ht : t = t2
    · subst ht
      rw [show ({ setPhase st t TaskPhase.idle with
          failed := insert t st.failed } : SchedState).phase t = .idle by
        simp [setPhase]] at hafter
      exact TaskPhase.noConfusion hafter
    · rw [show ({ setPhase st t2 TaskPhase.idle with
          failed := insert t2 st.failed } : SchedState).phase t = st.phase t by
        simp [setPhase, ht]] at hafter
      exact hbefore hafter

/-- Claim C4 witness: a concrete run of the machinery — `b` is dispatched,
runs and completes, then `a` (which depends on `b`) is dispatched and is
about to be marked running; at that instant its dependency `b` is
completed and not failed. -/
theorem claim_C4_dependency_ordering_witness :
    "b" ∈ schedU8.completed ∧ "b" ∉ schedU8.failed := by
  have h1 : SchedStep schedCtx2 schedStart schedU1 :=
    SchedStep.dispatch schedStart "b" (by decide) (by decide) (by decide)
      (by decide) (by decide)
  have h2 : SchedStep schedCtx2 schedU1 schedU2 :=
    SchedStep.acquire schedU1 "b" (by decide) (by decide)
  have h3 : SchedStep schedCtx2 schedU2 schedU3 :=
    SchedStep.checkOk schedU2 "b" (by decide) (by decide)
  have h4 : SchedStep schedCtx2 schedU3 schedU4 :=
    SchedStep.markRunning schedU3 "b" (by decide)
  have h5 : SchedStep schedCtx2 schedU4 schedU5 :=
    SchedStep.finishOk schedU4 "b" (by decide) (by decide)
  have h6 : SchedStep schedCtx2 schedU5 schedU6 :=
    SchedStep.dispatch schedU5 "a" (by decide) (by decide) (by decide)
      (by decide) (by decide)
  have h7 : SchedStep schedCtx2 schedU6 schedU7 :=
    SchedStep.acquire schedU6 "a" (by decide) (by decide)
  have h8 : SchedStep schedCtx2 schedU7 schedU8 :=
    SchedStep.checkOk schedU7 "a" (by decide) (by decide)
  have hre : SchedReachable schedCtx2 schedU8 :=
    Relation.ReflTransGen.tail (Relation.ReflTransGen.tail
      (Relation.ReflTransGen.tail (Relation.ReflTransGen.tail
        (Relation.ReflTransGen.tail (Relation.ReflTransGen.tail
          (Relation.ReflTransGen.tail (Relation.ReflTransGen.tail
            Relation.ReflTransGen.refl h1) h2) h3) h4) h5) h6) h7) h8
  exact claim_C4_dependency_ordering schedCtx2 schedU8
    (setPhase schedU8 "a" .runningTask) "a" hre
    (SchedStep.markRunning schedU8 "a" (by decide)) (by decide) (by decide)
    "b" (by decide)

theorem insertAll_taskGraphs {α : Type} (f : Store → α → Except String Store)
    (hf : ∀ (s : Store) (x : α) (s2 : Store), f s x = .ok s2 → s2.taskGraphs = s.taskGraphs) :
    ∀ (l : List α) (s : Store), ((insertAll f s l).2).taskGraphs = s.taskGraphs := by
  intro l
  induction l with
  | nil =>
    intro s
    rfl
  | cons x xs ih =>
    intro s
    show ((match f s x with
      | .ok s2 => insertAll f s2 xs
      | .error e => (.error e, s)).2).taskGraphs = s.taskGraphs
    cases hfx : f s x with
    | ok s2 =>
      rw [ih s2, hf s x s2 hfx]
    | error e =>
      rfl

theorem insertAll_tasks_preserved :
    ∀ (l : List TaskDependencyRow) (s : Store),
      ((insertAll insertTaskDependency s l).2).tasks = s.tasks := by
  intro l
  induction l with
  | nil =>
    intro s
    rfl
  | cons x xs ih =>
    intro s
    show ((match insertTaskDependency s x with
      | .ok s2 => insertAll insertTaskDependency s2 xs
      | .error e => (.error e, s)).2).tasks = s.tasks
    cases hfx : insertTaskDependency s x with
    | ok s2 =>
      rw [ih s2]
      unfold insertTaskDependency at hfx
      by_cases c1 : s.tasks.any (fun t => t.id == x.taskId)
      · by_cases c2 : s.tasks.any (fun t => t.id == x.dependsOnTaskId)
        · by_cases c3 : s.taskDependencies.any
              (fun d => d.taskId == x.taskId && d.dependsOnTaskId == x.dependsOnTaskId)
          · rw [if_neg (by simp [c1]), if_neg (by simp [c2]), if_pos c3] at hfx
            injection hfx with h
            rw [← h]
          · rw [if_neg (by simp [c1]), if_neg (by simp [c2]), if_neg (by simp [c3])] at hfx
            injection hfx with h
            rw [← h]
        · rw [if_neg (by simp [c1]), if_pos (by simp [c2])] at hfx
          exact Except.noConfusion hfx
      · rw [if_pos (by simp [c1])] at hfx
        exact Except.noConfusion hfx
    | error e =>
      rfl

theorem insertTaskRow_ok (gid : String) (s : Store) (td : TaskData) (s2 : Store)
    (h : insertTaskRow gid s td = .ok s2) :
    s2 = { s with tasks := s.tasks ++ [mkPendingRow gid td] } := by
  unfold insertTaskRow at h
  by_cases c1 : s.tasks.any (fun t => t.id == td.id)
  · rw [if_pos c1] at h
    exact Except.noConfusion h
  · rw [if_neg c1] at h
    injection h with h2
    exact h2.symm

theorem insertAll_tasks_ok (gid : String) :
    ∀ (tds : List TaskData) (s : Store) (u : Unit) (s2 : Store),
      insertAll (insertTaskRow gid) s tds = (.ok u, s2) →
      s2.tasks = s.tasks ++ tds.map (mkPendingRow gid) := by
  intro tds
  induction tds with
  | nil =>
    intro s u s2 h
    injection h with _ h2
    rw [← h2]
    simp
  | cons td rest ih =>
    intro s u s2 h
    rw [show insertAll (insertTaskRow gid) s (td :: rest) =
      (match insertTaskRow gid s td with
        | .ok s1 => insertAll (insertTaskRow gid) s1 rest
        | .error e => (.error e, s)) from rfl] at h
    cases hfx : insertTaskRow gid s td with
    | ok s1 =>
      rw [hfx] at h
      have hrec := ih s1 u s2 h
      rw [hrec, insertTaskRow_ok gid s td s1 hfx]
      simp
    | error e =>
      rw [hfx] at h
      injection h with h1 _
      exact Except.noConfusion h1

theorem insertTaskDependency_ok (s : Store) (e : TaskDependencyRow) (s2 : Store)
    (h : insertTaskDependency s e = .ok s2) :
    (∀ e2 ∈ s.taskDependencies, e2 ∈ s2.taskDependencies) ∧ e ∈ s2.taskDependencies := by
  unfold insertTaskDependency at h
  by_cases c1 : s.tasks.any (fun t => t.id == e.taskId)
  · by_cases c2 : s.tasks.any (fun t => t.id == e.dependsOnTaskId)
    · by_cases c3 : s.taskDependencies.any
          (fun d => d.taskId == e.taskId && d.dependsOnTaskId == e.dependsOnTaskId)
      · rw [if_neg (by simp [c1]), if_neg (by simp [c2]), if_pos c3] at h
        injection h with h2
        subst h2
        constructor
        · intro e2 he2
          exact he2
        · obtain ⟨d, hd, hp⟩ := List.any_eq_true.mp c3
          rw [Bool.and_eq_true, beq_iff_eq, beq_iff_eq] at hp
          have : d = e := by
            cases d
            cases e
            simp only at hp
            simp [hp.1, hp.2]
          rw [← this]
          exact hd
      · rw [if_neg (by simp [c1]), if_neg (by simp [c2]), if_neg (by simp [c3])] at h
        injection h with h2
        subst h2
        constructor
        · intro e2 he2
          exact List.mem_append_left _ he2
        · exact List.mem_append_right _ (List.mem_singleton.mpr rfl)
    · rw [if_neg (by simp [c1]), if_pos (by simp [c2])] at h
      exact Except.noConfusion h
  · rw [if_pos (by simp [c1])] at h
    exact Except.noConfusion h

theorem insertAll_deps_ok :
    ∀ (l : List TaskDependencyRow) (s : Store) (u : Unit) (s2 : Store),
      insertAll insertTaskDependency s l = (.ok u, s2) →
      (∀ e2 ∈ s.taskDependencies, e2 ∈ s2.taskDependencies) ∧
      (∀ e ∈ l, e ∈ s2.taskDependencies) := by
  intro l
  induction l with
  | nil =>
    intro s u s2 h
    injection h with _ h2
    subst h2
    exact ⟨fun e2 he2 => he2, fun e he => absurd he (List.not_mem_nil e)⟩
  | cons e rest ih =>
    intro s u s2 h
    rw [show insertAll insertTaskDependency s (e :: rest) =
      (match insertTaskDependency s e with
        | .ok s1 => insertAll insertTaskDependency s1 rest
        | .error e2 => (.error e2, s)) from rfl] at h
    cases hfx : insertTaskDependency s e with
    | ok s1 =>
      rw [hfx] at h
      have hone := insertTaskDependency_ok s e s1 hfx
      have hrec := ih s1 u s2 h
      refine ⟨fun e2 he2 => hrec.1 e2 (hone.1 e2 he2), ?_⟩
      intro e2 he2
      rcases List.mem_cons.mp he2 with rfl | he3
      · exact hrec.1 e2 (hone.2)
      · exact hrec.2 e2 he3
    | error e2 =>
      rw [hfx] at h
      injection h with h1 _
      exact Except.noConfusion h1

/-- Claim C3 amended: `create_task_graph` itself validates nothing; an
edge insert succeeds exactly when both endpoints exist in the `tasks`
table — any graph's tasks, not only the supplied ones — and otherwise the
call raises a foreign-key error.  The call is not atomic: each statement
auto-commits, so once the graph-id check passes the graph row is persisted
even when a later insert makes the call raise.  On success all supplied
tasks are persisted with status `pending` together with every supplied
edge. -/
theorem claim_C3_amended :
    (∀ (s : Store) (e : TaskDependencyRow),
      exceptOk (insertTaskDependency s e) = true ↔
        (e.taskId ∈ s.tasks.map (fun t => t.id) ∧
         e.dependsOnTaskId ∈ s.tasks.map (fun t => t.id))) ∧
    (∀ (s : Store) (gid nm : String) (tasks : List TaskData)
        (dependencies : List TaskDependencyRow),
      ¬ (s.taskGraphs.any (fun g => g.id == gid) = true) →
      ((create_task_graph s gid nm tasks dependencies).2).taskGraphs =
        s.taskGraphs ++ [{ id := gid, name := nm, status := "pending" }]) ∧
    (∀ (s : Store) (gid nm : String) (tasks : List TaskData)
        (dependencies : List TaskDependencyRow) (gid2 : String) (s3 : Store),
      create_task_graph s gid nm tasks dependencies = (.ok gid2, s3) →
      (∀ td ∈ tasks, mkPendingRow gid td ∈ s3.tasks) ∧
      (∀ e ∈ dependencies, e ∈ s3.taskDependencies)) := by
  have hmemiff : ∀ (s : Store) (y : String),
      (s.tasks.any (fun t => t.id == y) = true) ↔ y ∈ s.tasks.map (fun t => t.id) := by
    intro s y
    rw [List.any_eq_true]
    constructor
    · rintro ⟨t, ht, hp⟩
      rw [beq_iff_eq] at hp
      exact List.mem_map.mpr ⟨t, ht, hp⟩
    · intro h
      obtain ⟨t, ht, hp⟩ := List.mem_map.mp h
      exact ⟨t, ht, by simp [hp]⟩
  refine ⟨?_, ?_, ?_⟩
  · intro s e
    by_cases c1 : s.tasks.any (fun t => t.id == e.taskId)
    · by_cases c2 : s.tasks.any (fun t => t.id == e.dependsOnTaskId)
      · apply iff_of_true
        · unfold insertTaskDependency
          rw [if_neg (by simp [c1]), if_neg (by simp [c2])]
          by_cases c3 : s.taskDependencies.any
              (fun d => d.taskId == e.taskId && d.dependsOnTaskId == e.dependsOnTaskId)
          · rw [if_pos c3]
            rfl
          · rw [if_neg (by simp [c3])]
            rfl
        · exact ⟨(hmemiff s e.taskId).mp c1, (hmemiff s e.dependsOnTaskId).mp c2⟩
      · apply iff_of_false
        · unfold insertTaskDependency
          rw [if_neg (by simp [c1]), if_pos (by simp [c2])]
          simp [exceptOk]
        · intro hcon
          exact c2 ((hmemiff s e.dependsOnTaskId).mpr hcon.2)
    · apply iff_of_false
      · unfold insertTaskDependency
        rw [if_pos (by simp [c1])]
        simp [exceptOk]
      · intro hcon
        exact c1 ((hmemiff s e.taskId).mpr hcon.1)
  · intro s gid nm tasks dependencies hfresh
    unfold create_task_graph
    rw [if_neg hfresh]
    dsimp only
    have hstep1 := insertAll_taskGraphs (insertTaskRow gid) (by
      intro s0 x s2 h
      rw [insertTaskRow_ok gid s0 x s2 h]) tasks
      { s with taskGraphs := s.taskGraphs ++ [{ id := gid, name := nm, status := "pending" }] }
    have hstep2 := insertAll_taskGraphs insertTaskDependency (by
      intro s0 x s2 h
      obtain ⟨c1, c2⟩ : (s0.tasks.any (fun t => t.id == x.taskId) = true) ∧
          (s0.tasks.any (fun t => t.id == x.dependsOnTaskId) = true) := by
        by_contra hcon
        unfold insertTaskDependency at h
        by_cases d1 : s0.tasks.any (fun t => t.id == x.taskId)
        · by_cases d2 : s0.tasks.any (fun t => t.id == x.dependsOnTaskId)
          · exact hcon ⟨d1, d2⟩
          · rw [if_neg (by simp [d1]), if_pos (by simp [d2])] at h
            exact Except.noConfusion h
        · rw [if_pos (by simp [d1])] at h
          exact Except.noConfusion h
      unfold insertTaskDependency at h
      rw [if_neg (by simp [c1]), if_neg (by simp [c2])] at h
      by_cases c3 : s0.taskDependencies.any
          (fun d => d.taskId == x.taskId && d.dependsOnTaskId == x.dependsOnTaskId)
      · rw [if_pos c3] at h
        injection h with h2
        rw [← h2]
      · rw [if_neg (by simp [c3])] at h
        injection h with h2
        rw [← h2]) dependencies
    cases hA : insertAll (insertTaskRow gid)
        { s with taskGraphs := s.taskGraphs ++ [{ id := gid, name := nm, status := "pending" }] }
        tasks with
    | mk ea sA =>
      have hAg : sA.taskGraphs =
          s.taskGraphs ++ [{ id := gid, name := nm, status := "pending" }] := by
        have := hstep1
        rw [hA] at this
        exact this
      cases ea with
      | error e =>
        exact hAg
      | ok u =>
        dsimp only
        cases hB : insertAll insertTaskDependency sA dependencies with
        | mk eb sB =>
          have hBg : sB.taskGraphs = sA.taskGraphs := by
            have := hstep2 sA
            rw [hB] at this
            exact this
          cases eb with
          | error e =>
            show sB.taskGraphs = _
            rw [hBg, hAg]
          | ok u2 =>
            show sB.taskGraphs = _
            rw [hBg, hAg]
  · intro s gid nm tasks dependencies gid2 s3 h
    unfold create_task_graph at h
    by_cases hfresh : s.taskGraphs.any (fun g => g.id == gid)
    · rw [if_pos hfresh] at h
      injection h with h1 _
      exact Except.noConfusion h1
    · rw [if_neg hfresh] at h
      dsimp only at h
      cases hA : insertAll (insertTaskRow gid)
          { s with taskGraphs := s.taskGraphs ++ [{ id := gid, name := nm, status := "pending" }] }
          tasks with
      | mk ea sA =>
        rw [hA] at h
        cases ea with
        | error e =>
          injection h with h1 _
          exact Except.noConfusion h1
        | ok u =>
          dsimp only at h
          cases hB : insertAll insertTaskDependency sA dependencies with
          | mk eb sB =>
            rw [hB] at h
            cases eb with
            | error e =>
              injection h with h1 _
              exact Except.noConfusion h1
            | ok u2 =>
              injection h with _ h2
              subst h2
              have hTasksA := insertAll_tasks_ok gid tasks _ u sA hA
              have hTasksB : sB.tasks = sA.tasks := by
                have := insertAll_tasks_preserved dependencies sA
                rw [hB] at this
                exact this
              have hDeps := insertAll_deps_ok dependencies sA u2 sB hB
              constructor
              · intro td htd
                rw [hTasksB, hTasksA]
                apply List.mem_append_right
                exact List.mem_map.mpr ⟨td, htd, rfl⟩
              · exact hDeps.2

/-- Claim C3 amended, witness: the FK check on a concrete store, and the
concrete well-formed call persisting its graph row, pending task rows and
edge. -/
theorem claim_C3_amended_witness :
    (exceptOk (insertTaskDependency pairStore
        { taskId := "a", dependsOnTaskId := "b" }) = true ↔
      ("a" ∈ pairStore.tasks.map (fun t => t.id) ∧
       "b" ∈ pairStore.tasks.map (fun t => t.id))) ∧
    goodCreateCall.2.taskGraphs =
      emptyStore.taskGraphs ++ [{ id := "g1", name := "n", status := "pending" }] ∧
    mkPendingRow "g1" { id := "a", name := "A", agentType := none, inputData := "" } ∈
      goodCreateCall.2.tasks ∧
    ({ taskId := "b", dependsOnTaskId := "a" } : TaskDependencyRow) ∈
      goodCreateCall.2.taskDependencies := by
  have h3 := claim_C3_amended.2.2 emptyStore "g1" "n"
    [{ id := "a", name := "A", agentType := none, inputData := "" },
     { id := "b", name := "B", agentType := none, inputData := "" }]
    [{ taskId := "b", dependsOnTaskId := "a" }] "g1" goodCreateCall.2 rfl
  exact ⟨claim_C3_amended.1 pairStore { taskId := "a", dependsOnTaskId := "b" },
    claim_C3_amended.2.1 emptyStore "g1" "n"
      [{ id := "a", name := "A", agentType := none, inputData := "" },
       { id := "b", name := "B", agentType := none, inputData := "" }]
      [{ taskId := "b", dependsOnTaskId := "a" }] (by decide),
    h3.1 { id := "a", name := "A", agentType := none, inputData := "" } (by decide),
    h3.2 { taskId := "b", dependsOnTaskId := "a" } (by decide)⟩

end Vivify
